import Mathlib

/-!
# Verification of the pymcp client session core

A shallow embedding, in Lean 4, of the MCP client session implemented in
`src/mcp/client/new_session.py` together with the protocol value model in
`src/mcp/protocol/` (`base.py`, `initialization.py`, `sampling.py`,
`common.py`, `roots.py`) and the JSON-RPC envelopes.  Python dictionaries
are modelled as association lists over a JSON value type, asyncio futures
as explicit done-flags in the pending map, and the interleaving of the
receive loop with caller tasks as an explicit event-step relation.
-/

set_option maxHeartbeats 1000000

/-- JSON values as carried by transport payloads.  Numbers are modelled as
rationals (JSON numbers; the session logic never does arithmetic on them). -/
inductive J where
  | null : J
  | bool (b : Bool) : J
  | num (q : Rat) : J
  | str (s : String) : J
  | arr (elems : List J) : J
  | obj (fields : List (String × J)) : J

namespace J

/-- `payload.get(key)`: the binding for `k`, if any (keys are unique in a
Python dict, so the first binding is the binding). -/
def getKey (fields : List (String × J)) (k : String) : Option J :=
  match fields.find? (fun f => f.1 = k) with
  | some f => some f.2
  | none => none

/-- `key in payload` on a Python dict, modelled on an association list. -/
def hasKey (fields : List (String × J)) (k : String) : Bool :=
  (getKey fields k).isSome

/-- `d[key] = v` on a Python dict: replace an existing binding in place, or
append a new one (insertion order is preserved by Python dicts). -/
def setKey (fields : List (String × J)) (k : String) (v : J) : List (String × J) :=
  if hasKey fields k then
    fields.map (fun f => if f.1 = k then (k, v) else f)
  else
    fields ++ [(k, v)]

end J

/-! ## Inbound message classification (`ClientSession._handle_message`) -/

namespace ClientSession

/-- `_is_request`: `"method" in payload and "id" in payload`. -/
def is_request (payload : List (String × J)) : Bool :=
  J.hasKey payload "method" && J.hasKey payload "id"

/-- `_is_response`: `"id" in payload and ("result" in payload or "error" in payload)`. -/
def is_response (payload : List (String × J)) : Bool :=
  J.hasKey payload "id" && (J.hasKey payload "result" || J.hasKey payload "error")

/-- `_is_notification`: `"method" in payload and "id" not in payload`. -/
def is_notification (payload : List (String × J)) : Bool :=
  J.hasKey payload "method" && !(J.hasKey payload "id")

/-- `_validate_request_id`'s type test `isinstance(request_id, int | str)`.
JSON integers land as Python ints (booleans are ints in Python); JSON
fractions land as floats and fail the test. -/
def valid_request_id : Option J → Bool
  | some (J.num q) => q.den = 1
  | some (J.str _) => true
  | some (J.bool _) => true
  | _ => false

/-- What `_handle_message` did with one inbound payload: dispatched it as a
response / request / notification, or raised (`ValueError` for an unknown
shape or an invalid id), which `_message_loop` catches and survives. -/
inductive Handled where
  | response : Handled
  | request : Handled
  | notification : Handled
  | errBadId : Handled
  | errUnknownType : Handled
deriving DecidableEq, Repr

/-- `_handle_message`: validate the id when the payload looks like a request
or a response, then dispatch through the `if _is_response / elif _is_request
/ elif _is_notification / else raise` chain. -/
def handle_message (payload : List (String × J)) : Handled :=
  if (is_request payload || is_response payload)
      && !(valid_request_id (J.getKey payload "id")) then
    Handled.errBadId
  else if is_response payload then Handled.response
  else if is_request payload then Handled.request
  else if is_notification payload then Handled.notification
  else Handled.errUnknownType

/-- Input to `_message_loop`: a received message, or a transport failure
(`transport.receive` raising), which breaks the loop. -/
inductive LoopIn where
  | msg (payload : List (String × J)) : LoopIn
  | transportFail : LoopIn

/-- `_message_loop`: handle every received message (exceptions from
`_handle_message` are caught and the loop continues); exit on transport
failure. -/
def message_loop : List LoopIn → List Handled
  | [] => []
  | LoopIn.msg p :: rest => handle_message p :: message_loop rest
  | LoopIn.transportFail :: _ => []

/-- Modelled from the spec: "**Response** ⇔ has `id` AND (`result` XOR
`error`)" — the exclusive-or form claimed in §4.2, for comparison with the
code's `is_response`. -/
def specIsResponse (payload : List (String × J)) : Bool :=
  J.hasKey payload "id"
    && (J.hasKey payload "result" ^^ J.hasKey payload "error")

/-- Modelled from the spec: "**Request** ⇔ has `method` AND `id`". -/
def specIsRequest (payload : List (String × J)) : Bool :=
  J.hasKey payload "method" && J.hasKey payload "id"

/-- Modelled from the spec: "**Notification** ⇔ has `method` AND lacks
`id`". -/
def specIsNotification (payload : List (String × J)) : Bool :=
  J.hasKey payload "method" && !(J.hasKey payload "id")

end ClientSession

/-- A payload carrying `method`, `id`, `result` and `error` at once.  The
spec's XOR rule says it is not a response (result XOR error is false) and
its request rule says it is a request (method and id present); the code
dispatches it as a response. -/
def c4Payload : List (String × J) :=
  [("method", J.str "tools/list"), ("id", J.num 7),
   ("result", J.null), ("error", J.null)]

/-- C4 counterexample: the code's classification is not the spec's.  The
payload `{method, id, result, error}` is processed as a response, although
the claimed rule "Response ⇔ id AND (result XOR error)" rejects it and the
claimed rule "Request ⇔ method AND id" accepts it as a request. -/
theorem c4_counterexample :
    ClientSession.handle_message c4Payload = ClientSession.Handled.response
      ∧ ClientSession.specIsResponse c4Payload = false
      ∧ ClientSession.specIsRequest c4Payload = true := by
  refine ⟨by decide, by decide, by decide⟩

/-- C4 (amended): classification is total and follows the code's rules: a
payload with a well-typed id is processed as a Response iff it has `id` and
`result` OR `error` (inclusive, and a response takes precedence over a
request); as a Request iff it has `method` and `id` and neither `result`
nor `error`; as a Notification iff it has `method` and lacks `id`; a
payload satisfying none is reported as malformed; and the receive loop
continues past the message either way. -/
theorem c4_classification (p : List (String × J))
    (hid : J.hasKey p "id" = true →
      ClientSession.valid_request_id (J.getKey p "id") = true) :
    (ClientSession.handle_message p = ClientSession.Handled.response ↔
       J.hasKey p "id" = true
         ∧ (J.hasKey p "result" = true ∨ J.hasKey p "error" = true))
    ∧ (ClientSession.handle_message p = ClientSession.Handled.request ↔
       J.hasKey p "method" = true ∧ J.hasKey p "id" = true
         ∧ J.hasKey p "result" = false ∧ J.hasKey p "error" = false)
    ∧ (ClientSession.handle_message p = ClientSession.Handled.notification ↔
       J.hasKey p "method" = true ∧ J.hasKey p "id" = false)
    ∧ (ClientSession.handle_message p = ClientSession.Handled.errUnknownType ↔
       J.hasKey p "method" = false
         ∧ (J.hasKey p "id" = false
            ∨ (J.hasKey p "result" = false ∧ J.hasKey p "error" = false)))
    ∧ (∀ rest, ClientSession.message_loop (ClientSession.LoopIn.msg p :: rest)
         = ClientSession.handle_message p :: ClientSession.message_loop rest) := by
  cases hm : J.hasKey p "method" <;> cases hi : J.hasKey p "id"
    <;> cases hr : J.hasKey p "result" <;> cases he : J.hasKey p "error" <;>
  simp_all [ClientSession.handle_message, ClientSession.is_request,
    ClientSession.is_response, ClientSession.is_notification,
    ClientSession.message_loop]

/-- C4 witness: a plain notification payload is processed as a
notification, by the amended classification theorem. -/
theorem c4_classification_witness :
    ClientSession.handle_message [("method", J.str "ping")]
      = ClientSession.Handled.notification := by
  exact ((c4_classification [("method", J.str "ping")] (by decide)).2.2.1).mpr
    (by decide)

/-! ## Protocol values needed by the session (`mcp/protocol/base.py`,
`common.py`; JSON-RPC envelopes) -/

namespace Protocol

/-- `RequestId = int | str`. -/
abbrev RId := Int ⊕ String

/-- Python truthiness of an optional dict/list: `None` and the empty
collection are falsy. -/
def truthy : Option (List α) → Bool
  | some l => !l.isEmpty
  | none => false

/-- wire encoding of a `RequestId`. -/
def ridToJ : RId → J
  | Sum.inl n => J.num n
  | Sum.inr s => J.str s

/-- `Error` (`base.py`): code, message, optional data. -/
structure Error where
  code : Int
  message : String
  data : Option J := none

/-- `Error.from_protocol`: `code` and `message` are required (`data["code"]`
/ `data["message"]` raise `KeyError` when missing, and validation requires
an int and a string); `data` is optional. -/
def Error.from_protocol (j : J) : Except String Error :=
  match j with
  | J.obj fields =>
    match J.getKey fields "code", J.getKey fields "message" with
    | some (J.num c), some (J.str m) =>
        if c.den = 1 then Except.ok ⟨c.num, m, J.getKey fields "data"⟩
        else Except.error "code must be an integer"
    | _, _ => Except.error "missing or ill-typed code/message"
  | _ => Except.error "error payload must be an object"

/-- `Error.to_protocol`: `model_dump(exclude_none=True)`. -/
def Error.to_protocol (e : Error) : List (String × J) :=
  [("code", J.num e.code), ("message", J.str e.message)]
    ++ (match e.data with | some d => [("data", d)] | none => [])

/-- `CancelledNotification` (`common.py`): `requestId` and an optional
`reason`, plus the base class's optional metadata. -/
structure CancelledNotification where
  request_id : RId
  reason : Option String := none
  metadata : Option (List (String × J)) := none

/-- `Notification.to_protocol` specialized to `CancelledNotification`:
`params` is the alias-keyed dump with `None` fields dropped, `_meta` is
added only when metadata is truthy, and `params` is attached only when
non-empty. -/
def CancelledNotification.to_protocol (n : CancelledNotification) :
    List (String × J) :=
  let params : List (String × J) :=
    [("requestId", ridToJ n.request_id)]
      ++ (match n.reason with | some r => [("reason", J.str r)] | none => [])
  let params :=
    if truthy n.metadata then J.setKey params "_meta" (J.obj (n.metadata.getD []))
    else params
  let result : List (String × J) := [("method", J.str "notifications/cancelled")]
  if params.isEmpty then result else J.setKey result "params" (J.obj params)

/-- `JSONRPCNotification.to_wire`: the notification's protocol dict with
`jsonrpc = "2.0"` added. -/
def JSONRPCNotification.to_wire (proto : List (String × J)) : List (String × J) :=
  J.setKey proto "jsonrpc" (J.str "2.0")

end Protocol

/-! ## The session's request/response correlation
(`ClientSession.send_request`, `_handle_response`, `_message_loop`,
`_cancel_pending_requests`), as an event-step machine.  Each event is one
atomic stretch of one asyncio task (code between two suspension points),
which is exactly the granularity at which the single-threaded event loop
interleaves tasks. -/

namespace ClientSession

/-- The one outcome a caller blocked on an outbound request observes. -/
inductive Resolution where
  | ok (result : J) (md : Option J) : Resolution
  | mcpError (e : Protocol.Error) (md : Option J) : Resolution
  | timedOut : Resolution
  | shutdown (reason : String) : Resolution
  | sendFailed : Resolution

/-- Session state: `_request_id`, `_pending_requests` (each future with its
done flag), `_buffered_responses`, `_running`, plus a ghost log of the
resolutions delivered to callers. -/
structure SessState where
  request_id : Int
  pending : List (Int × Bool)
  buffered : List (Protocol.RId × List (String × J) × Option J)
  resolutions : List (Int × Resolution)
  running : Bool

def initState : SessState := ⟨0, [], [], [], false⟩

/-- `_pending_requests` lookup. -/
def lookupPending : List (Int × Bool) → Int → Option Bool
  | [], _ => none
  | p :: rest, k => if p.1 = k then some p.2 else lookupPending rest k

/-- Mark the future of request `k` done (its result/exception was set). -/
def markDone (l : List (Int × Bool)) (k : Int) : List (Int × Bool) :=
  l.map (fun p => if p.1 = k then (p.1, true) else p)

/-- `self._pending_requests.pop(request_id, None)`. -/
def popPending (l : List (Int × Bool)) (k : Int) : List (Int × Bool) :=
  l.filter (fun p => p.1 ≠ k)

/-- `self._buffered_responses[message_id] = (payload, metadata)`. -/
def storeBuffered (l : List (Protocol.RId × List (String × J) × Option J))
    (rid : Protocol.RId) (payload : List (String × J)) (md : Option J) :
    List (Protocol.RId × List (String × J) × Option J) :=
  if (l.map Prod.fst).contains rid then
    l.map (fun b => if b.1 = rid then (rid, payload, md) else b)
  else
    l ++ [(rid, payload, md)]

end ClientSession

namespace ClientSession

/-- The wire payload of the `notifications/cancelled` emitted on timeout,
built through `CancelledNotification` / `JSONRPCNotification.to_wire`. -/
def cancelled_wire (k : Int) (reason : String) : List (String × J) :=
  Protocol.JSONRPCNotification.to_wire
    (Protocol.CancelledNotification.to_protocol
      ⟨Sum.inl k, some reason, none⟩)

/-- One atomic stretch of one task, at the session's observable surface:

* `send` — `send_request` (or `_do_initialize`) allocates the next id,
  registers a fresh future, and `transport.send` succeeds;
* `sendFail` — same, but `transport.send` raises: the `finally` pops the
  entry and the caller gets the transport error;
* `respond` — the receive loop dispatches an inbound response payload
  (`_handle_response`);
* `resume` — a caller whose future is done resumes and runs its
  `finally` pop;
* `timeoutFire` — `asyncio.wait_for` expires for request `k`: the future
  is cancelled (done), the caller sends `notifications/cancelled` and then
  raises `TimeoutError`;
* `loopExit` — the receive loop exits (transport failure or `stop`) and
  its `finally` runs `_cancel_pending_requests`. -/
inductive Event where
  | send : Event
  | sendFail : Event
  | respond (rid : Protocol.RId) (payload : List (String × J))
      (md : Option J) : Event
  | resume (k : Int) : Event
  | timeoutFire (k : Int) : Event
  | loopExit : Event

/-- Externally visible effects of a step, in order. -/
inductive Action where
  | wireSend (payload : List (String × J)) : Action
  | deliver (k : Int) (r : Resolution) : Action

/-- The outcome `_handle_response` sets on a pending, not-yet-done future:
the `error` branch is taken first (wrapping the parsed protocol error as a
typed `MCPError` with the transport metadata), else the `result` branch
delivers `(payload["result"], metadata)`; `none` when the error payload
fails `Error.from_protocol` (the raised exception is caught by the loop)
or when the payload has neither key. -/
def responseResolution (payload : List (String × J)) (md : Option J) :
    Option Resolution :=
  match J.getKey payload "error" with
  | some ej =>
    match Protocol.Error.from_protocol ej with
    | Except.ok e => some (Resolution.mcpError e md)
    | Except.error _ => none
  | none =>
    match J.getKey payload "result" with
    | some r => some (Resolution.ok r md)
    | none => none

/-- `_handle_response` on one inbound response payload: a pending undone
future is completed with `responseResolution`; completing an already-done
future raises `InvalidStateError`, which the loop catches (no state
change); an unknown id (including every string id, since outbound ids are
ints) is stored in the orphan buffer. -/
def handle_response (s : SessState) (rid : Protocol.RId)
    (payload : List (String × J)) (md : Option J) : SessState × List Action :=
  match rid with
  | Sum.inl k =>
    match lookupPending s.pending k with
    | some false =>
      (match responseResolution payload md with
       | some r =>
           ({ s with pending := markDone s.pending k,
                     resolutions := s.resolutions ++ [(k, r)] },
            [Action.deliver k r])
       | none => (s, []))
    | some true => (s, [])
    | none =>
        ({ s with buffered := storeBuffered s.buffered rid payload md }, [])
  | Sum.inr _ =>
      ({ s with buffered := storeBuffered s.buffered rid payload md }, [])

/-- The step function.  `loopExit` mirrors
`_cancel_pending_requests("Message loop terminated")`: every not-done
future gets a `ConnectionError` and the map is cleared. -/
def step (s : SessState) (e : Event) : SessState × List Action :=
  match e with
  | Event.send =>
      ({ s with request_id := s.request_id + 1,
                pending := s.pending ++ [(s.request_id, false)],
                running := true }, [])
  | Event.sendFail =>
      ({ s with request_id := s.request_id + 1,
                resolutions :=
                  s.resolutions ++ [(s.request_id, Resolution.sendFailed)],
                running := true },
       [Action.deliver s.request_id Resolution.sendFailed])
  | Event.respond rid payload md =>
      if s.running = false then (s, [])
      else handle_response s rid payload md
  | Event.resume k =>
      match lookupPending s.pending k with
      | some true => ({ s with pending := popPending s.pending k }, [])
      | _ => (s, [])
  | Event.timeoutFire k =>
      match lookupPending s.pending k with
      | some false =>
          ({ s with pending := markDone s.pending k,
                    resolutions := s.resolutions ++ [(k, Resolution.timedOut)] },
           [Action.wireSend (cancelled_wire k "Request timed out"),
            Action.deliver k Resolution.timedOut])
      | _ => (s, [])
  | Event.loopExit =>
      if s.running = false then (s, [])
      else
        let dropped := s.pending.filter (fun p => p.2 = false)
        ({ s with pending := [],
                  running := false,
                  resolutions := s.resolutions ++ dropped.map
                    (fun p => (p.1, Resolution.shutdown "Message loop terminated")) },
         dropped.map
           (fun p => Action.deliver p.1 (Resolution.shutdown "Message loop terminated")))

/-- Run a sequence of events. -/
def run (s : SessState) : List Event → SessState
  | [] => s
  | e :: es => run (step s e).1 es

end ClientSession

namespace ClientSession

theorem lookupPending_mem {l : List (Int × Bool)} {k : Int} {b : Bool} :
    lookupPending l k = some b → (k, b) ∈ l := by
  induction l with
  | nil => intro h; simp [lookupPending] at h
  | cons p rest ih =>
    rw [lookupPending]
    by_cases hp : p.1 = k
    · rw [if_pos hp]
      intro h
      obtain rfl : p.2 = b := Option.some.injEq _ _ ▸ h
      subst hp
      simp
    · rw [if_neg hp]
      intro h
      exact List.mem_cons_of_mem _ (ih h)

theorem lookupPending_none {l : List (Int × Bool)} {k : Int} :
    lookupPending l k = none → k ∉ l.map Prod.fst := by
  induction l with
  | nil => simp
  | cons p rest ih =>
    rw [lookupPending]
    by_cases hp : p.1 = k
    · rw [if_pos hp]; intro h; cases h
    · rw [if_neg hp]
      intro h
      simp only [List.map_cons, List.mem_cons]
      rintro (h1 | h1)
      · exact hp h1.symm
      · exact ih h h1

theorem map_fst_markDone (l : List (Int × Bool)) (k : Int) :
    (markDone l k).map Prod.fst = l.map Prod.fst := by
  induction l with
  | nil => rfl
  | cons p rest ih =>
    simp only [markDone, List.map_cons] at ih ⊢
    by_cases hp : p.1 = k
    · rw [if_pos hp, ih]
    · rw [if_neg hp, ih]

theorem mem_markDone_false {l : List (Int × Bool)} {k a : Int}
    (h : (a, false) ∈ markDone l k) : (a, false) ∈ l ∧ a ≠ k := by
  induction l with
  | nil => simp [markDone] at h
  | cons p rest ih =>
    simp only [markDone, List.map_cons, List.mem_cons] at h
    rcases h with h | h
    · by_cases hp : p.1 = k
      · rw [if_pos hp] at h
        exact absurd (congrArg Prod.snd h) (by simp)
      · rw [if_neg hp] at h
        constructor
        · rw [h]; exact List.mem_cons_self _ _
        · intro hak
          exact hp (((congrArg Prod.fst h).symm).trans hak)
    · exact ⟨List.mem_cons_of_mem _ (ih h).1, (ih h).2⟩

theorem mem_markDone_true {l : List (Int × Bool)} {k a : Int}
    (h : (a, true) ∈ markDone l k) : a = k ∨ (a, true) ∈ l := by
  induction l with
  | nil => simp [markDone] at h
  | cons p rest ih =>
    simp only [markDone, List.map_cons, List.mem_cons] at h
    rcases h with h | h
    · by_cases hp : p.1 = k
      · rw [if_pos hp] at h
        left
        have h1 : a = p.1 := congrArg Prod.fst h
        rw [h1]; exact hp
      · rw [if_neg hp] at h
        right
        rw [h]; exact List.mem_cons_self _ _
    · rcases ih h with h1 | h1
      · exact Or.inl h1
      · exact Or.inr (List.mem_cons_of_mem _ h1)

/-- The correlator invariant: outbound ids are below the counter and
unique; the resolution log has at most one entry per id; an id whose
future is still undone is unresolved, one whose future is done is
resolved; every allocated id is pending or resolved; a stopped loop left
no pending entry behind. -/
structure Inv (s : SessState) : Prop where
  pending_lt : ∀ a ∈ s.pending.map Prod.fst, a < s.request_id
  pending_nodup : (s.pending.map Prod.fst).Nodup
  res_nodup : (s.resolutions.map Prod.fst).Nodup
  res_lt : ∀ a ∈ s.resolutions.map Prod.fst, a < s.request_id
  undone_unres : ∀ k, (k, false) ∈ s.pending → k ∉ s.resolutions.map Prod.fst
  done_res : ∀ k, (k, true) ∈ s.pending → k ∈ s.resolutions.map Prod.fst
  alloc_covered : ∀ k : Int, 0 ≤ k → k < s.request_id →
      k ∈ s.pending.map Prod.fst ∨ k ∈ s.resolutions.map Prod.fst
  not_running_pending : s.running = false → s.pending = []

theorem inv_init : Inv initState := by
  constructor <;> simp [initState]

end ClientSession

namespace ClientSession

theorem inv_buffered {s : SessState} (hInv : Inv s)
    (b : List (Protocol.RId × List (String × J) × Option J)) :
    Inv { s with buffered := b } :=
  ⟨hInv.pending_lt, hInv.pending_nodup, hInv.res_nodup, hInv.res_lt,
   hInv.undone_unres, hInv.done_res, hInv.alloc_covered,
   hInv.not_running_pending⟩

theorem inv_fire {s : SessState} (hInv : Inv s) {k : Int} (r : Resolution)
    (hk : lookupPending s.pending k = some false) :
    Inv { s with pending := markDone s.pending k,
                 resolutions := s.resolutions ++ [(k, r)] } := by
  have hmem : (k, false) ∈ s.pending := lookupPending_mem hk
  have hkfst : k ∈ s.pending.map Prod.fst :=
    List.mem_map.mpr ⟨(k, false), hmem, rfl⟩
  have hknores : k ∉ s.resolutions.map Prod.fst := hInv.undone_unres k hmem
  constructor
  · intro a ha
    rw [map_fst_markDone] at ha
    exact hInv.pending_lt a ha
  · rw [map_fst_markDone]
    exact hInv.pending_nodup
  · simp only [List.map_append, List.map_cons, List.map_nil]
    rw [List.nodup_append]
    refine ⟨hInv.res_nodup, List.nodup_singleton k, ?_⟩
    intro a ha hb
    simp only [List.mem_singleton] at hb
    subst hb
    exact hknores ha
  · intro a ha
    simp only [List.map_append, List.map_cons, List.map_nil,
      List.mem_append, List.mem_singleton] at ha
    rcases ha with ha | ha
    · exact hInv.res_lt a ha
    · subst ha
      exact hInv.pending_lt a hkfst
  · intro k' hk'
    obtain ⟨h1, h2⟩ := mem_markDone_false hk'
    simp only [List.map_append, List.map_cons, List.map_nil,
      List.mem_append, List.mem_singleton]
    rintro (h | h)
    · exact hInv.undone_unres k' h1 h
    · exact h2 h
  · intro k' hk'
    simp only [List.map_append, List.map_cons, List.map_nil,
      List.mem_append, List.mem_singleton]
    rcases mem_markDone_true hk' with h | h
    · right; exact h
    · left; exact hInv.done_res k' h
  · intro a h0 hlt
    simp only [List.map_append, List.map_cons, List.map_nil,
      List.mem_append, List.mem_singleton]
    rw [map_fst_markDone]
    rcases hInv.alloc_covered a h0 hlt with h | h
    · left; exact h
    · right; left; exact h
  · intro hr
    have h0 := hInv.not_running_pending hr
    rw [h0] at hk
    simp [lookupPending] at hk

end ClientSession

namespace ClientSession

theorem inv_step {s : SessState} (hInv : Inv s) (e : Event) :
    Inv (step s e).1 := by
  cases e with
  | send =>
    simp only [step]
    constructor
    · intro a ha
      simp only [List.map_append, List.map_cons, List.map_nil,
        List.mem_append, List.mem_singleton] at ha
      have hgoal : a < s.request_id + 1 := by
        rcases ha with ha | ha
        · have := hInv.pending_lt a ha; omega
        · subst ha; omega
      exact hgoal
    · simp only [List.map_append, List.map_cons, List.map_nil]
      rw [List.nodup_append]
      refine ⟨hInv.pending_nodup, List.nodup_singleton _, ?_⟩
      intro a ha hb
      simp only [List.mem_singleton] at hb
      subst hb
      exact absurd (hInv.pending_lt _ ha) (by omega)
    · exact hInv.res_nodup
    · intro a ha
      have hgoal : a < s.request_id + 1 := by
        have := hInv.res_lt a ha; omega
      exact hgoal
    · intro k hk
      simp only [List.mem_append, List.mem_singleton] at hk
      rcases hk with hk | hk
      · exact hInv.undone_unres k hk
      · have h1 : k = s.request_id := congrArg Prod.fst hk
        subst h1
        intro hmem
        exact absurd (hInv.res_lt _ hmem) (by omega)
    · intro k hk
      simp only [List.mem_append, List.mem_singleton] at hk
      rcases hk with hk | hk
      · exact hInv.done_res k hk
      · exact absurd (congrArg Prod.snd hk) (by simp)
    · intro a h0 hlt
      simp only [List.map_append, List.map_cons, List.map_nil,
        List.mem_append, List.mem_singleton]
      have hlt' : a < s.request_id + 1 := hlt
      by_cases ha : a = s.request_id
      · left; right; exact ha
      · rcases hInv.alloc_covered a h0 (by omega) with h | h
        · left; left; exact h
        · right; exact h
    · intro hr; simp at hr
  | sendFail =>
    simp only [step]
    constructor
    · intro a ha
      have hgoal : a < s.request_id + 1 := by
        have := hInv.pending_lt a ha; omega
      exact hgoal
    · exact hInv.pending_nodup
    · simp only [List.map_append, List.map_cons, List.map_nil]
      rw [List.nodup_append]
      refine ⟨hInv.res_nodup, List.nodup_singleton _, ?_⟩
      intro a ha hb
      simp only [List.mem_singleton] at hb
      subst hb
      exact absurd (hInv.res_lt _ ha) (by omega)
    · intro a ha
      simp only [List.map_append, List.map_cons, List.map_nil,
        List.mem_append, List.mem_singleton] at ha
      have hgoal : a < s.request_id + 1 := by
        rcases ha with ha | ha
        · have := hInv.res_lt a ha; omega
        · subst ha; omega
      exact hgoal
    · intro k hk
      simp only [List.map_append, List.map_cons, List.map_nil,
        List.mem_append, List.mem_singleton]
      rintro (h | h)
      · exact hInv.undone_unres k hk h
      · subst h
        have := hInv.pending_lt _ (List.mem_map.mpr ⟨_, hk, rfl⟩)
        omega
    · intro k hk
      simp only [List.map_append, List.map_cons, List.map_nil,
        List.mem_append, List.mem_singleton]
      left
      exact hInv.done_res k hk
    · intro a h0 hlt
      simp only [List.map_append, List.map_cons, List.map_nil,
        List.mem_append, List.mem_singleton]
      have hlt' : a < s.request_id + 1 := hlt
      by_cases ha : a = s.request_id
      · right; right; exact ha
      · rcases hInv.alloc_covered a h0 (by omega) with h | h
        · left; exact h
        · right; left; exact h
    · intro hr; simp at hr
  | respond rid payload md =>
    simp only [step]
    by_cases hr : s.running = false
    · rw [if_pos hr]; exact hInv
    · rw [if_neg hr]
      cases rid with
      | inr str => exact inv_buffered hInv _
      | inl k =>
        simp only [handle_response]
        cases hlk : lookupPending s.pending k with
        | none => exact inv_buffered hInv _
        | some b =>
          cases b with
          | true => exact hInv
          | false =>
            cases hrr : responseResolution payload md with
            | some r => exact inv_fire hInv r hlk
            | none => exact hInv
  | resume k =>
    simp only [step]
    cases hlk : lookupPending s.pending k with
    | none => exact hInv
    | some b =>
      cases b with
      | false => exact hInv
      | true =>
        have hsub : List.Sublist ((popPending s.pending k).map Prod.fst)
            (s.pending.map Prod.fst) :=
          (List.filter_sublist _).map Prod.fst
        constructor
        · intro a ha
          exact hInv.pending_lt a (hsub.subset ha)
        · exact List.Nodup.sublist hsub hInv.pending_nodup
        · exact hInv.res_nodup
        · exact hInv.res_lt
        · intro k' hk'
          exact hInv.undone_unres k' (List.mem_of_mem_filter hk')
        · intro k' hk'
          exact hInv.done_res k' (List.mem_of_mem_filter hk')
        · intro a h0 hlt
          rcases hInv.alloc_covered a h0 hlt with h | h
          · obtain ⟨p, hp, hpa⟩ := List.mem_map.mp h
            by_cases hak : a = k
            · right
              subst hak
              exact hInv.done_res a (lookupPending_mem hlk)
            · left
              apply List.mem_map.mpr
              refine ⟨p, ?_, hpa⟩
              apply List.mem_filter.mpr
              refine ⟨hp, ?_⟩
              simp only [decide_eq_true_eq]
              rw [hpa]
              exact hak
          · right; exact h
        · intro hrun
          have h0 := hInv.not_running_pending hrun
          rw [h0] at hlk
          simp [lookupPending] at hlk
  | timeoutFire k =>
    simp only [step]
    cases hlk : lookupPending s.pending k with
    | none => exact hInv
    | some b =>
      cases b with
      | false => exact inv_fire hInv _ hlk
      | true => exact hInv
  | loopExit =>
    simp only [step]
    by_cases hr : s.running = false
    · rw [if_pos hr]; exact hInv
    · rw [if_neg hr]
      have hdropsub : List.Sublist
          ((s.pending.filter (fun p => p.2 = false)).map Prod.fst)
          (s.pending.map Prod.fst) :=
        (List.filter_sublist _).map Prod.fst
      constructor
      · intro a ha; simp at ha
      · simp
      · simp only [List.map_append, List.map_map]
        have hcomp : (Prod.fst ∘ fun p : Int × Bool =>
            (p.1, Resolution.shutdown "Message loop terminated")) = Prod.fst := by
          funext p; rfl
        rw [hcomp, List.nodup_append]
        refine ⟨hInv.res_nodup, List.Nodup.sublist hdropsub hInv.pending_nodup, ?_⟩
        intro a ha hb
        obtain ⟨p, hp, hpa⟩ := List.mem_map.mp hb
        have hpf := List.mem_filter.mp hp
        have hp2 : p.2 = false := by simpa using hpf.2
        have hpair : (a, false) ∈ s.pending := by
          have hpeq : p = (a, false) := by
            cases p; simp_all
          rw [← hpeq]; exact hpf.1
        exact hInv.undone_unres a hpair ha
      · intro a ha
        simp only [List.map_append, List.map_map, List.mem_append] at ha
        have hgoal : a < s.request_id := by
          rcases ha with ha | ha
          · exact hInv.res_lt a ha
          · obtain ⟨p, hp, hpa⟩ := List.mem_map.mp ha
            apply hInv.pending_lt
            apply List.mem_map.mpr
            exact ⟨p, List.mem_of_mem_filter hp, hpa⟩
        exact hgoal
      · intro k' hk'; simp at hk'
      · intro k' hk'; simp at hk'
      · intro a h0 hlt
        simp only [List.map_append, List.map_map, List.mem_append]
        right
        rcases hInv.alloc_covered a h0 hlt with h | h
        · obtain ⟨p, hp, hpa⟩ := List.mem_map.mp h
          cases hb : p.2 with
          | false =>
            right
            apply List.mem_map.mpr
            refine ⟨p, ?_, ?_⟩
            · apply List.mem_filter.mpr
              exact ⟨hp, by simp [hb]⟩
            · exact hpa
          | true =>
            left
            have hpair : (a, true) ∈ s.pending := by
              have hpeq : p = (a, true) := by cases p; simp_all
              rw [← hpeq]; exact hp
            exact hInv.done_res a hpair
        · left; exact h
      · intro _; rfl

theorem inv_run {s : SessState} (hInv : Inv s) (es : List Event) :
    Inv (run s es) := by
  induction es generalizing s with
  | nil => exact hInv
  | cons e rest ih => exact ih (inv_step hInv e)

end ClientSession

namespace ClientSession

theorem lookupPending_of_not_mem {l : List (Int × Bool)} {k : Int}
    (h : k ∉ l.map Prod.fst) : lookupPending l k = none := by
  induction l with
  | nil => rfl
  | cons p rest ih =>
    simp only [List.map_cons, List.mem_cons] at h
    push_neg at h
    rw [lookupPending, if_neg (fun hp => h.1 hp.symm)]
    exact ih h.2

theorem not_mem_popPending (l : List (Int × Bool)) (k : Int) :
    k ∉ (popPending l k).map Prod.fst := by
  intro h
  obtain ⟨p, hp, hpk⟩ := List.mem_map.mp h
  have := (List.mem_filter.mp hp).2
  simp only [decide_eq_true_eq] at this
  exact this hpk

/-- On loop exit, the pending map is emptied and every allocated id ends up
resolved, the still-undone ones with the shutdown `ConnectionError`. -/
theorem exit_drains {s : SessState} (hInv : Inv s) :
    (step s Event.loopExit).1.pending = []
    ∧ ((step s Event.loopExit).1.resolutions.map Prod.fst).Nodup
    ∧ (∀ k : Int, 0 ≤ k → k < s.request_id →
        k ∈ (step s Event.loopExit).1.resolutions.map Prod.fst)
    ∧ (∀ k, (k, false) ∈ s.pending →
        (k, Resolution.shutdown "Message loop terminated")
          ∈ (step s Event.loopExit).1.resolutions) := by
  have hInv' := inv_step hInv Event.loopExit
  have hpen : (step s Event.loopExit).1.pending = [] := by
    by_cases hr : s.running = false
    · simp [step, hr, hInv.not_running_pending hr]
    · simp [step, hr]
  have hrid : (step s Event.loopExit).1.request_id = s.request_id := by
    by_cases hr : s.running = false <;> simp [step, hr]
  refine ⟨hpen, hInv'.res_nodup, ?_, ?_⟩
  · intro k h0 hlt
    rcases hInv'.alloc_covered k h0 (by rw [hrid]; exact hlt) with h | h
    · rw [hpen] at h; simp at h
    · exact h
  · intro k hk
    by_cases hr : s.running = false
    · rw [hInv.not_running_pending hr] at hk
      simp at hk
    · have hstep : (step s Event.loopExit).1.resolutions =
          s.resolutions ++ ((s.pending.filter (fun p => p.2 = false)).map
            (fun p => (p.1, Resolution.shutdown "Message loop terminated"))) := by
        simp [step, hr]
      rw [hstep]
      apply List.mem_append_right
      apply List.mem_map.mpr
      refine ⟨(k, false), ?_, rfl⟩
      exact List.mem_filter.mpr ⟨hk, by simp⟩

end ClientSession

/-- The session state after a sequence of interleaved events, starting
from a fresh session. -/
def afterEvents (es : List ClientSession.Event) : ClientSession.SessState :=
  ClientSession.run ClientSession.initState es

/-- The session state after the receive loop then exits. -/
def afterExit (es : List ClientSession.Event) : ClientSession.SessState :=
  (ClientSession.step (afterEvents es) ClientSession.Event.loopExit).1

/-- C1: over every interleaving of outbound requests, inbound responses,
timeouts, caller resumptions and loop exit, each outbound request id is
resolved at most once (the resolution log holds no duplicate id, and each
entry is by construction exactly one of a result, a typed server error, a
timeout, a shutdown error, or a failed send); every allocated id is either
still pending or already resolved; and when the receive loop exits, the
pending map is emptied, the log still has no duplicates, every allocated
id is resolved, and every still-undone request was released with the
shutdown `ConnectionError` — so no caller hangs. -/
theorem c1_requests_resolved_exactly_once (es : List ClientSession.Event) :
    ((afterEvents es).resolutions.map Prod.fst).Nodup
    ∧ (∀ k : Int, 0 ≤ k → k < (afterEvents es).request_id →
        k ∈ (afterEvents es).pending.map Prod.fst
          ∨ k ∈ (afterEvents es).resolutions.map Prod.fst)
    ∧ (afterExit es).pending = []
    ∧ ((afterExit es).resolutions.map Prod.fst).Nodup
    ∧ (∀ k : Int, 0 ≤ k → k < (afterEvents es).request_id →
        k ∈ (afterExit es).resolutions.map Prod.fst)
    ∧ (∀ k, (k, false) ∈ (afterEvents es).pending →
        (k, ClientSession.Resolution.shutdown "Message loop terminated")
          ∈ (afterExit es).resolutions) := by
  have hInv : ClientSession.Inv (afterEvents es) :=
    ClientSession.inv_run ClientSession.inv_init es
  have hdrain := ClientSession.exit_drains hInv
  exact ⟨hInv.res_nodup, hInv.alloc_covered, hdrain.1, hdrain.2.1,
    hdrain.2.2.1, hdrain.2.2.2⟩

/-- C1 witness: after one request is sent and the loop exits, the request
was resolved with the shutdown error and the pending map is empty. -/
theorem c1_requests_resolved_exactly_once_witness :
    (afterExit [ClientSession.Event.send]).pending = []
    ∧ (0 : Int) ∈ (afterExit [ClientSession.Event.send]).resolutions.map Prod.fst := by
  have h := c1_requests_resolved_exactly_once [ClientSession.Event.send]
  exact ⟨h.2.2.1, h.2.2.2.2.1 0 (by decide) (by decide)⟩

namespace ClientSession

theorem lookupPending_append_right {l l' : List (Int × Bool)} {k : Int}
    (h : lookupPending l k = none) :
    lookupPending (l ++ l') k = lookupPending l' k := by
  induction l with
  | nil => rfl
  | cons p rest ih =>
    rw [lookupPending] at h
    by_cases hp : p.1 = k
    · rw [if_pos hp] at h; cases h
    · rw [if_neg hp] at h
      rw [List.cons_append, lookupPending, if_neg hp]
      exact ih h

theorem lookupPending_markDone (l : List (Int × Bool)) (k : Int) :
    lookupPending (markDone l k) k
      = (lookupPending l k).map (fun _ => true) := by
  induction l with
  | nil => rfl
  | cons p rest ih =>
    by_cases hp : p.1 = k
    · simp [markDone, lookupPending, hp]
    · simp only [markDone, List.map_cons, if_neg hp] at ih ⊢
      rw [lookupPending, if_neg hp, lookupPending, if_neg hp]
      exact ih

theorem run_append (s : SessState) (es es' : List Event) :
    run s (es ++ es') = run (run s es) es' := by
  induction es generalizing s with
  | nil => rfl
  | cons e rest ih =>
    rw [List.cons_append, run, run]
    exact ih (step s e).1

theorem step_respond_fire {s : SessState} {k : Int}
    {payload : List (String × J)} {md : Option J} {r : Resolution}
    (hrun : s.running = true)
    (hlk : lookupPending s.pending k = some false)
    (hrr : responseResolution payload md = some r) :
    step s (Event.respond (Sum.inl k) payload md) =
      ({ s with pending := markDone s.pending k,
                resolutions := s.resolutions ++ [(k, r)] },
       [Action.deliver k r]) := by
  simp only [step]
  rw [if_neg (by rw [hrun]; simp)]
  simp only [handle_response]
  rw [hlk, hrr]

theorem step_respond_orphan_inl {s : SessState} {k : Int}
    {payload : List (String × J)} {md : Option J}
    (hrun : s.running = true)
    (hlk : lookupPending s.pending k = none) :
    step s (Event.respond (Sum.inl k) payload md) =
      ({ s with buffered :=
            storeBuffered s.buffered (Sum.inl k) payload md }, []) := by
  simp only [step]
  rw [if_neg (by rw [hrun]; simp)]
  simp only [handle_response]
  rw [hlk]

theorem step_resume_done {s : SessState} {k : Int}
    (hlk : lookupPending s.pending k = some true) :
    step s (Event.resume k) =
      ({ s with pending := popPending s.pending k }, []) := by
  simp only [step]
  rw [hlk]

theorem step_timeout_fire_eq {s : SessState} {k : Int}
    (hlk : lookupPending s.pending k = some false) :
    step s (Event.timeoutFire k) =
      ({ s with pending := markDone s.pending k,
                resolutions := s.resolutions ++ [(k, Resolution.timedOut)] },
       [Action.wireSend (cancelled_wire k "Request timed out"),
        Action.deliver k Resolution.timedOut]) := by
  simp only [step]
  rw [hlk]

/-- From any state satisfying the invariant, a freshly allocated request
answered by the server with a `result` is resolved with exactly that
result, and the entry leaves the pending map once the caller resumes. -/
theorem fresh_exchange {s : SessState} (hInv : Inv s)
    (payload : List (String × J)) (md : Option J) (r : J)
    (herr : J.getKey payload "error" = none)
    (hres : J.getKey payload "result" = some r) :
    (s.request_id, Resolution.ok r md) ∈
      (run s [Event.send,
        Event.respond (Sum.inl s.request_id) payload md]).resolutions := by
  have hlknone : lookupPending s.pending s.request_id = none :=
    lookupPending_of_not_mem (fun h => absurd (hInv.pending_lt _ h) (lt_irrefl _))
  have hlk1 : lookupPending ((step s Event.send).1.pending) s.request_id
      = some false := by
    show lookupPending (s.pending ++ [(s.request_id, false)]) s.request_id
      = some false
    rw [lookupPending_append_right hlknone]
    simp [lookupPending]
  have hrr : responseResolution payload md = some (Resolution.ok r md) := by
    simp only [responseResolution]
    rw [herr, hres]
  have hrun1 : (step s Event.send).1.running = true := rfl
  have h2 := step_respond_fire hrun1 hlk1 hrr
  show (s.request_id, Resolution.ok r md) ∈
    (step (step s Event.send).1
      (Event.respond (Sum.inl s.request_id) payload md)).1.resolutions
  rw [h2]
  show (s.request_id, Resolution.ok r md) ∈
    (step s Event.send).1.resolutions ++ [(s.request_id, Resolution.ok r md)]
  exact List.mem_append_right _ (List.mem_singleton.mpr rfl)

end ClientSession

theorem afterEvents_append (es l : List ClientSession.Event) :
    afterEvents (es ++ l) = ClientSession.run (afterEvents es) l :=
  ClientSession.run_append _ es l

/-- C3: when a pending request `k` times out, the session emits the
`notifications/cancelled` wire message carrying `requestId = k` and reason
"Request timed out" strictly before the timeout error is surfaced to the
caller; the request's entry leaves the pending map once the caller's
`finally` runs; the loop's running flag is untouched; and a subsequent
request on the same session still succeeds. -/
theorem c3_timeout_cancellation (es : List ClientSession.Event) (k : Int)
    (hk : ClientSession.lookupPending (afterEvents es).pending k
      = some false) :
    (ClientSession.step (afterEvents es)
        (ClientSession.Event.timeoutFire k)).2
      = [ClientSession.Action.wireSend
           (ClientSession.cancelled_wire k "Request timed out"),
         ClientSession.Action.deliver k ClientSession.Resolution.timedOut]
    ∧ J.getKey (ClientSession.cancelled_wire k "Request timed out") "method"
        = some (J.str "notifications/cancelled")
    ∧ (∃ params,
        J.getKey (ClientSession.cancelled_wire k "Request timed out") "params"
          = some (J.obj params)
        ∧ J.getKey params "requestId" = some (J.num (k : Rat))
        ∧ J.getKey params "reason" = some (J.str "Request timed out"))
    ∧ (k, ClientSession.Resolution.timedOut)
        ∈ (afterEvents (es ++ [ClientSession.Event.timeoutFire k])).resolutions
    ∧ k ∉ (afterEvents (es ++ [ClientSession.Event.timeoutFire k,
          ClientSession.Event.resume k])).pending.map Prod.fst
    ∧ (afterEvents (es ++ [ClientSession.Event.timeoutFire k,
          ClientSession.Event.resume k])).running = (afterEvents es).running
    ∧ (∀ payload md r, J.getKey payload "error" = none →
        J.getKey payload "result" = some r →
        ((afterEvents (es ++ [ClientSession.Event.timeoutFire k,
            ClientSession.Event.resume k])).request_id,
          ClientSession.Resolution.ok r md) ∈
          (ClientSession.run
            (afterEvents (es ++ [ClientSession.Event.timeoutFire k,
              ClientSession.Event.resume k]))
            [ClientSession.Event.send,
             ClientSession.Event.respond
               (Sum.inl (afterEvents (es ++ [ClientSession.Event.timeoutFire k,
                 ClientSession.Event.resume k])).request_id)
               payload md]).resolutions) := by
  have hInvS : ClientSession.Inv (afterEvents es) :=
    ClientSession.inv_run ClientSession.inv_init es
  have h1 := ClientSession.step_timeout_fire_eq hk
  have happ1 : afterEvents (es ++ [ClientSession.Event.timeoutFire k])
      = (ClientSession.step (afterEvents es)
          (ClientSession.Event.timeoutFire k)).1 := by
    rw [afterEvents_append]; rfl
  have hlk2 : ClientSession.lookupPending
      (ClientSession.step (afterEvents es)
        (ClientSession.Event.timeoutFire k)).1.pending k = some true := by
    rw [h1]
    show ClientSession.lookupPending
      (ClientSession.markDone (afterEvents es).pending k) k = some true
    rw [ClientSession.lookupPending_markDone, hk]
    rfl
  have h2 := ClientSession.step_resume_done hlk2
  have happ2 : afterEvents (es ++ [ClientSession.Event.timeoutFire k,
        ClientSession.Event.resume k])
      = (ClientSession.step (ClientSession.step (afterEvents es)
          (ClientSession.Event.timeoutFire k)).1
            (ClientSession.Event.resume k)).1 := by
    rw [afterEvents_append]; rfl
  refine ⟨?_, ?_, ?_, ?_, ?_, ?_, ?_⟩
  · rw [h1]
  · rfl
  · exact ⟨[("requestId", J.num (k : Rat)),
      ("reason", J.str "Request timed out")], rfl, rfl, rfl⟩
  · rw [happ1, h1]
    show (k, ClientSession.Resolution.timedOut) ∈
      (afterEvents es).resolutions ++ [(k, ClientSession.Resolution.timedOut)]
    exact List.mem_append_right _ (List.mem_singleton.mpr rfl)
  · rw [happ2, h2]
    show k ∉ (ClientSession.popPending (ClientSession.step (afterEvents es)
      (ClientSession.Event.timeoutFire k)).1.pending k).map Prod.fst
    exact ClientSession.not_mem_popPending _ _
  · rw [happ2, h2, h1]
  · intro payload md r herr hres
    have hInv2 : ClientSession.Inv
        (afterEvents (es ++ [ClientSession.Event.timeoutFire k,
          ClientSession.Event.resume k])) := by
      rw [afterEvents_append]
      exact ClientSession.inv_run hInvS _
    exact ClientSession.fresh_exchange hInv2 payload md r herr hres

/-- C3 witness: on a session with one pending request (id 0), firing its
timeout emits the cancelled notification before delivering the timeout
error. -/
theorem c3_timeout_cancellation_witness :
    (ClientSession.step (afterEvents [ClientSession.Event.send])
        (ClientSession.Event.timeoutFire 0)).2
      = [ClientSession.Action.wireSend
           (ClientSession.cancelled_wire 0 "Request timed out"),
         ClientSession.Action.deliver 0 ClientSession.Resolution.timedOut] :=
  (c3_timeout_cancellation [ClientSession.Event.send] 0 (by decide)).1

/-- C5: for an inbound response with integer id `k` on a running session:
if `k` is pending and undone, the waiting completion is fired exactly once
— with the result payload or with the parsed server error as a typed
`MCPError` (that is what `responseResolution` produces) — and the entry
leaves the pending map once the caller resumes; if `k` matches no
outstanding request, the payload and metadata are stored in the orphan
buffer, nothing else changes, and a subsequent valid request/response
exchange still works. -/
theorem c5_response_completion_or_orphan (es : List ClientSession.Event)
    (k : Int) (payload : List (String × J)) (md : Option J)
    (hrun : (afterEvents es).running = true) :
    (∀ r, ClientSession.lookupPending (afterEvents es).pending k
        = some false →
       ClientSession.responseResolution payload md = some r →
       (ClientSession.step (afterEvents es)
          (ClientSession.Event.respond (Sum.inl k) payload md)).1.resolutions
         = (afterEvents es).resolutions ++ [(k, r)]
       ∧ (((ClientSession.step (afterEvents es)
            (ClientSession.Event.respond (Sum.inl k) payload md)).1.resolutions.map
              Prod.fst).count k) = 1
       ∧ k ∉ (ClientSession.run (afterEvents es)
            [ClientSession.Event.respond (Sum.inl k) payload md,
             ClientSession.Event.resume k]).pending.map Prod.fst)
    ∧ (ClientSession.lookupPending (afterEvents es).pending k = none →
       ClientSession.step (afterEvents es)
           (ClientSession.Event.respond (Sum.inl k) payload md)
         = ({ afterEvents es with
              buffered := ClientSession.storeBuffered (afterEvents es).buffered
                (Sum.inl k) payload md }, [])
       ∧ (∀ payload2 md2 r2,
           J.getKey payload2 "error" = none →
           J.getKey payload2 "result" = some r2 →
           ((ClientSession.step (afterEvents es)
               (ClientSession.Event.respond (Sum.inl k) payload md)).1.request_id,
             ClientSession.Resolution.ok r2 md2) ∈
             (ClientSession.run
               (ClientSession.step (afterEvents es)
                 (ClientSession.Event.respond (Sum.inl k) payload md)).1
               [ClientSession.Event.send,
                ClientSession.Event.respond
                  (Sum.inl (ClientSession.step (afterEvents es)
                    (ClientSession.Event.respond (Sum.inl k) payload md)).1.request_id)
                  payload2 md2]).resolutions)) := by
  have hInvS : ClientSession.Inv (afterEvents es) :=
    ClientSession.inv_run ClientSession.inv_init es
  constructor
  · intro r hlk hrr
    have h1 := ClientSession.step_respond_fire hrun hlk hrr
    have hnot : k ∉ (afterEvents es).resolutions.map Prod.fst :=
      hInvS.undone_unres k (ClientSession.lookupPending_mem hlk)
    refine ⟨?_, ?_, ?_⟩
    · rw [h1]
    · rw [h1]
      show (((afterEvents es).resolutions ++ [(k, r)]).map Prod.fst).count k = 1
      rw [List.map_append, List.count_append, List.count_eq_zero.mpr hnot]
      simp
    · have hlk2 : ClientSession.lookupPending
          (ClientSession.step (afterEvents es)
            (ClientSession.Event.respond (Sum.inl k) payload md)).1.pending k
          = some true := by
        rw [h1]
        show ClientSession.lookupPending
          (ClientSession.markDone (afterEvents es).pending k) k = some true
        rw [ClientSession.lookupPending_markDone, hlk]
        rfl
      show k ∉ (ClientSession.step (ClientSession.step (afterEvents es)
        (ClientSession.Event.respond (Sum.inl k) payload md)).1
          (ClientSession.Event.resume k)).1.pending.map Prod.fst
      rw [ClientSession.step_resume_done hlk2]
      show k ∉ (ClientSession.popPending (ClientSession.step (afterEvents es)
        (ClientSession.Event.respond (Sum.inl k) payload md)).1.pending k).map
          Prod.fst
      exact ClientSession.not_mem_popPending _ _
  · intro hlk
    have h2 := @ClientSession.step_respond_orphan_inl (afterEvents es) k
      payload md hrun hlk
    refine ⟨h2, ?_⟩
    intro payload2 md2 r2 herr2 hres2
    have hInv2 : ClientSession.Inv (ClientSession.step (afterEvents es)
        (ClientSession.Event.respond (Sum.inl k) payload md)).1 :=
      ClientSession.inv_step hInvS _
    exact ClientSession.fresh_exchange hInv2 payload2 md2 r2 herr2 hres2

/-- C5 witness: on a session with one pending request (id 0), the inbound
response with result fires that caller's completion exactly once. -/
theorem c5_response_completion_or_orphan_witness :
    ((ClientSession.step (afterEvents [ClientSession.Event.send])
        (ClientSession.Event.respond (Sum.inl 0) [("result", J.null)]
          none)).1.resolutions.map Prod.fst).count 0 = 1 :=
  ((c5_response_completion_or_orphan [ClientSession.Event.send] 0
      [("result", J.null)] none (by decide)).1
    (ClientSession.Resolution.ok J.null none) (by decide) rfl).2.1

/-! ## The handshake controller (`ClientSession.initialize` /
`_do_initialize`).  The correlation mechanics of the initialize request
(the pending map, its timeout, its drain) are those of the session model
above; what this models is the handshake control flow: the idempotence
guards at the top of `initialize`, and `_do_initialize`'s sequence of
sends, version check and failure handling.  A caller's entry into
`initialize()` runs synchronously up to its first `await` (asyncio runs a
task until it suspends), so an entry is one atomic step. -/

namespace Protocol

def PROTOCOL_VERSION : String := "2025-03-26"

/-- `Implementation`: name and version of a client or server. -/
structure Implementation where
  name : String
  version : String

end Protocol

namespace ClientSession

/-- `InitializeResult` (`initialization.py`): the server's half of the
handshake.  Capabilities are carried through untouched by the session, so
they stay a JSON value here. -/
structure InitializeResult where
  protocol_version : String
  capabilities : J
  server_info : Protocol.Implementation
  instructions : Option String := none

/-- The initialization fields of the session: `_initialized`,
`_initialize_result`, and whether `_initializing` holds an in-flight
task. -/
structure InitState where
  initialized : Bool
  initialize_result : Option InitializeResult
  initializing : Bool

/-- Handshake-relevant world: the session's init fields plus counters of
what went over the wire and whether `stop()` ran. -/
structure InitWorld where
  st : InitState
  sentInitialize : Nat
  sentInitialized : Nat
  stopped : Bool

def freshInitWorld : InitWorld := ⟨⟨false, none, false⟩, 0, 0, false⟩

/-- What one caller's synchronous entry into `initialize()` decided. -/
inductive InitEntry where
  | cached (r : InitializeResult) : InitEntry
  | joins : InitEntry
  | starts : InitEntry

/-- The guard chain at the top of `initialize`: return the cached result
if `_initialized and _initialize_result is not None`; await the in-flight
attempt if `_initializing`; otherwise create the `_do_initialize` task
(setting `_initializing` before any suspension). -/
def initialize_entry (w : InitWorld) : InitEntry × InitWorld :=
  match w.st.initialized, w.st.initialize_result with
  | true, some r => (InitEntry.cached r, w)
  | _, _ =>
    if w.st.initializing then (InitEntry.joins, w)
    else (InitEntry.starts,
          { w with st := { w.st with initializing := true } })

/-- How the attempt's awaited response turns out: a parsed
`InitializeResult`, a transport/parse failure, or `wait_for` expiry. -/
inductive InitReply where
  | result (r : InitializeResult) : InitReply
  | parseFailure : InitReply
  | timeout : InitReply

/-- What `_do_initialize` raises or returns. -/
inductive InitOutcome where
  | ok (r : InitializeResult) : InitOutcome
  | versionMismatch (server : String) : InitOutcome
  | parseError : InitOutcome
  | timedOut : InitOutcome

/-- Externally visible effects of `_do_initialize`, in order. -/
inductive InitEffect where
  | wireInitialize : InitEffect
  | wireInitialized : InitEffect
  | wireCancelled (reason : String) : InitEffect
  | stopSession : InitEffect
deriving DecidableEq, Repr

/-- `_do_initialize`: send the `InitializeRequest`; await the response
under the timeout; on a reply, parse and compare `protocolVersion` with
the client's constant — on mismatch stop the session and raise, on match
send the `InitializedNotification` and only then mark the session
initialized and cache the result; on timeout send a
`CancelledNotification` with reason "Initialization timed out", stop, and
raise; on any other failure stop and re-raise. -/
def do_initialize (w : InitWorld) (reply : InitReply) :
    InitOutcome × InitWorld × List InitEffect :=
  match reply with
  | InitReply.result r =>
    if r.protocol_version ≠ Protocol.PROTOCOL_VERSION then
      (InitOutcome.versionMismatch r.protocol_version,
       { w with sentInitialize := w.sentInitialize + 1, stopped := true },
       [InitEffect.wireInitialize, InitEffect.stopSession])
    else
      (InitOutcome.ok r,
       { w with sentInitialize := w.sentInitialize + 1,
                sentInitialized := w.sentInitialized + 1,
                st := { w.st with initialized := true,
                                  initialize_result := some r } },
       [InitEffect.wireInitialize, InitEffect.wireInitialized])
  | InitReply.parseFailure =>
      (InitOutcome.parseError,
       { w with sentInitialize := w.sentInitialize + 1, stopped := true },
       [InitEffect.wireInitialize, InitEffect.stopSession])
  | InitReply.timeout =>
      (InitOutcome.timedOut,
       { w with sentInitialize := w.sentInitialize + 1, stopped := true },
       [InitEffect.wireInitialize,
        InitEffect.wireCancelled "Initialization timed out",
        InitEffect.stopSession])

/-- The `finally` of `initialize`: `self._initializing = None`. -/
def finish_initialize (w : InitWorld) : InitWorld :=
  { w with st := { w.st with initializing := false } }

/-- When the second of two overlapping `initialize()` calls enters:
while the attempt is still running, or after the attempt's body finished
but before the starter's `finally` cleared `_initializing` (both overlap
the first call; entries are atomic, see above). -/
inductive SecondCallerAt where
  | duringAttempt : SecondCallerAt
  | beforeClear : SecondCallerAt
deriving DecidableEq, Repr

/-- A joiner's result: a cached value is that value; a joiner awaiting the
shared task gets the attempt's outcome; a starter gets the outcome too. -/
def entryOutcome (e : InitEntry) (attempt : InitOutcome) : InitOutcome :=
  match e with
  | InitEntry.cached r => InitOutcome.ok r
  | InitEntry.joins => attempt
  | InitEntry.starts => attempt

/-- Two concurrent `initialize()` calls on a fresh session: caller A
enters first and starts the attempt; caller B enters at `t`; the attempt
resolves as `reply`.  Returns both entries, both callers' outcomes, and
the final world. -/
def two_concurrent_initialize (reply : InitReply) (t : SecondCallerAt) :
    (InitEntry × InitEntry) × (InitOutcome × InitOutcome) × InitWorld :=
  let (eA, w1) := initialize_entry freshInitWorld
  match t with
  | SecondCallerAt.duringAttempt =>
    let (eB, w2) := initialize_entry w1
    let (out, w3, _) := do_initialize w2 reply
    ((eA, eB), (entryOutcome eA out, entryOutcome eB out),
     finish_initialize w3)
  | SecondCallerAt.beforeClear =>
    let (out, w2, _) := do_initialize w1 reply
    let (eB, w3) := initialize_entry w2
    ((eA, eB), (entryOutcome eA out, entryOutcome eB out),
     finish_initialize w3)

end ClientSession

/-- C2: `initialize` is idempotent and concurrent-safe.  (i) If the
session is initialized with a cached result, a further call returns that
cached result and changes nothing (in particular no I/O — the call never
reaches a send).  (ii) If an attempt is in flight, a caller joins it.
(iii) For two concurrent calls on a fresh session — the second entering
either while the attempt runs or after it finished but before the
starter's `finally` — exactly one `initialize` request goes out, at most
one `initialized` notification goes out, both callers get the same
outcome, and on a successful matching-version reply exactly one
`initialized` notification is sent and both callers get the result. -/
theorem c2_initialize_idempotent_concurrent :
    (∀ (w : ClientSession.InitWorld) (r : ClientSession.InitializeResult),
       w.st.initialized = true → w.st.initialize_result = some r →
       ClientSession.initialize_entry w = (ClientSession.InitEntry.cached r, w))
    ∧ (∀ w : ClientSession.InitWorld,
       ¬(w.st.initialized = true ∧ ∃ r, w.st.initialize_result = some r) →
       w.st.initializing = true →
       ClientSession.initialize_entry w = (ClientSession.InitEntry.joins, w))
    ∧ (∀ (reply : ClientSession.InitReply) (t : ClientSession.SecondCallerAt),
       (ClientSession.two_concurrent_initialize reply t).1.1
           = ClientSession.InitEntry.starts
       ∧ (ClientSession.two_concurrent_initialize reply t).2.2.sentInitialize = 1
       ∧ (ClientSession.two_concurrent_initialize reply t).2.2.sentInitialized ≤ 1
       ∧ (ClientSession.two_concurrent_initialize reply t).2.1.1
           = (ClientSession.two_concurrent_initialize reply t).2.1.2
       ∧ (∀ r, reply = ClientSession.InitReply.result r →
           r.protocol_version = Protocol.PROTOCOL_VERSION →
           (ClientSession.two_concurrent_initialize reply t).2.2.sentInitialized = 1
           ∧ (ClientSession.two_concurrent_initialize reply t).2.1.1
               = ClientSession.InitOutcome.ok r)) := by
  refine ⟨?_, ?_, ?_⟩
  · intro w r h1 h2
    simp [ClientSession.initialize_entry, h1, h2]
  · intro w hnot hflight
    cases hini : w.st.initialized with
    | false =>
      cases hres : w.st.initialize_result with
      | none => simp [ClientSession.initialize_entry, hini, hres, hflight]
      | some r => simp [ClientSession.initialize_entry, hini, hres, hflight]
    | true =>
      cases hres : w.st.initialize_result with
      | none => simp [ClientSession.initialize_entry, hini, hres, hflight]
      | some r => exact absurd ⟨hini, r, hres⟩ hnot
  · intro reply t
    cases reply with
    | result r =>
      by_cases hv : r.protocol_version = Protocol.PROTOCOL_VERSION
      · cases t <;>
          simp [ClientSession.two_concurrent_initialize,
            ClientSession.initialize_entry, ClientSession.freshInitWorld,
            ClientSession.do_initialize, ClientSession.finish_initialize,
            ClientSession.entryOutcome, hv]
      · cases t <;>
          simp [ClientSession.two_concurrent_initialize,
            ClientSession.initialize_entry, ClientSession.freshInitWorld,
            ClientSession.do_initialize, ClientSession.finish_initialize,
            ClientSession.entryOutcome, hv]
    | parseFailure =>
      cases t <;>
        simp [ClientSession.two_concurrent_initialize,
          ClientSession.initialize_entry, ClientSession.freshInitWorld,
          ClientSession.do_initialize, ClientSession.finish_initialize,
          ClientSession.entryOutcome]
    | timeout =>
      cases t <;>
        simp [ClientSession.two_concurrent_initialize,
          ClientSession.initialize_entry, ClientSession.freshInitWorld,
          ClientSession.do_initialize, ClientSession.finish_initialize,
          ClientSession.entryOutcome]

/-- A concrete successful server handshake reply. -/
def c2DemoResult : ClientSession.InitializeResult :=
  ⟨"2025-03-26", J.obj [("logging", J.obj [])],
   ⟨"test-server", "1.0.0"⟩, none⟩

/-- A session world that has already completed the handshake. -/
def c2DemoWorld : ClientSession.InitWorld :=
  ⟨⟨true, some c2DemoResult, false⟩, 1, 1, false⟩

/-- C2 witness: a call on an already-initialized session returns the
cached result unchanged, and two concurrent calls on a fresh session with
a successful reply send exactly one initialize request and one
initialized notification. -/
theorem c2_initialize_idempotent_concurrent_witness :
    ClientSession.initialize_entry c2DemoWorld
      = (ClientSession.InitEntry.cached c2DemoResult, c2DemoWorld)
    ∧ (ClientSession.two_concurrent_initialize
        (ClientSession.InitReply.result c2DemoResult)
        ClientSession.SecondCallerAt.duringAttempt).2.2.sentInitialize = 1
    ∧ (ClientSession.two_concurrent_initialize
        (ClientSession.InitReply.result c2DemoResult)
        ClientSession.SecondCallerAt.duringAttempt).2.2.sentInitialized = 1 := by
  have h := c2_initialize_idempotent_concurrent
  refine ⟨h.1 c2DemoWorld c2DemoResult rfl rfl, ?_, ?_⟩
  · exact (h.2.2 (ClientSession.InitReply.result c2DemoResult)
      ClientSession.SecondCallerAt.duringAttempt).2.1
  · exact ((h.2.2 (ClientSession.InitReply.result c2DemoResult)
      ClientSession.SecondCallerAt.duringAttempt).2.2.2.2 c2DemoResult rfl rfl).1

/-- C6: when the server's `InitializeResult` carries a `protocolVersion`
different from the client's constant "2025-03-26", `_do_initialize` sends
no `initialized` notification, stops the session, and raises the
version-mismatch error to the caller; the init state is untouched, so the
session does not become Ready on this path. -/
theorem c6_version_mismatch_stops_session (w : ClientSession.InitWorld)
    (r : ClientSession.InitializeResult)
    (hv : r.protocol_version ≠ Protocol.PROTOCOL_VERSION) :
    ClientSession.do_initialize w (ClientSession.InitReply.result r)
      = (ClientSession.InitOutcome.versionMismatch r.protocol_version,
         { w with sentInitialize := w.sentInitialize + 1, stopped := true },
         [ClientSession.InitEffect.wireInitialize,
          ClientSession.InitEffect.stopSession])
    ∧ ClientSession.InitEffect.wireInitialized
        ∉ (ClientSession.do_initialize w (ClientSession.InitReply.result r)).2.2
    ∧ (ClientSession.do_initialize w (ClientSession.InitReply.result r)).2.1.st
        = w.st
    ∧ (ClientSession.do_initialize w
        (ClientSession.InitReply.result r)).2.1.sentInitialized
        = w.sentInitialized
    ∧ (ClientSession.do_initialize w
        (ClientSession.InitReply.result r)).2.1.stopped = true := by
  have h : ClientSession.do_initialize w (ClientSession.InitReply.result r)
      = (ClientSession.InitOutcome.versionMismatch r.protocol_version,
         { w with sentInitialize := w.sentInitialize + 1, stopped := true },
         [ClientSession.InitEffect.wireInitialize,
          ClientSession.InitEffect.stopSession]) := by
    simp [ClientSession.do_initialize, hv]
  refine ⟨h, ?_, ?_, ?_, ?_⟩ <;> simp [h]

/-- C6 witness: a server replying with protocolVersion "NOT_A_VERSION" on
a fresh session: no initialized notification, session stopped, caller
fails with the version mismatch. -/
theorem c6_version_mismatch_stops_session_witness :
    (ClientSession.do_initialize ClientSession.freshInitWorld
      (ClientSession.InitReply.result
        ⟨"NOT_A_VERSION", J.null, ⟨"test-server", "1.0.0"⟩, none⟩)).1
      = ClientSession.InitOutcome.versionMismatch "NOT_A_VERSION"
    ∧ ClientSession.InitEffect.wireInitialized
        ∉ (ClientSession.do_initialize ClientSession.freshInitWorld
            (ClientSession.InitReply.result
              ⟨"NOT_A_VERSION", J.null, ⟨"test-server", "1.0.0"⟩, none⟩)).2.2 := by
  have h := c6_version_mismatch_stops_session ClientSession.freshInitWorld
    ⟨"NOT_A_VERSION", J.null, ⟨"test-server", "1.0.0"⟩, none⟩ (by decide)
  exact ⟨by rw [h.1], h.2.1⟩

/-! ## `sampling/createMessage` (`mcp/protocol/sampling.py`, with content
types from `content.py`).  `model_dump(mode="json", by_alias=True,
exclude_none=True)` of the nested models is spelled out as explicit
encoders; pydantic validation on the way back in is spelled out as
decoders returning `Except`.  The `TextContent | ImageContent |
AudioContent` union is resolved by the wire `type` tag (each class's
frozen default). -/

namespace Protocol

/-- Python truthiness of a JSON value (`if llm_meta:` and friends). -/
def jTruthy : J → Bool
  | J.null => false
  | J.bool b => b
  | J.num q => q ≠ 0
  | J.str s => s ≠ ""
  | J.arr l => !l.isEmpty
  | J.obj m => !m.isEmpty

/-- An optional field of a `model_dump(exclude_none=True)`: absent when
`None`. -/
def optEntry (k : String) : Option J → List (String × J)
  | some v => [(k, v)]
  | none => []

/-- `Role`: "user" or "assistant". -/
inductive Role where
  | user : Role
  | assistant : Role
deriving DecidableEq, Repr

def Role.toJ : Role → J
  | Role.user => J.str "user"
  | Role.assistant => J.str "assistant"

def Role.fromJ : J → Except String Role
  | J.str "user" => Except.ok Role.user
  | J.str "assistant" => Except.ok Role.assistant
  | _ => Except.error "invalid role"

/-- `Annotations` (`content.py`): display hints.  The before-validator
turns a single role into a one-element list, so a validated value always
holds a list (or nothing). -/
structure Annots where
  audience : Option (List Role) := none
  priority : Option Rat := none
deriving DecidableEq, Repr

def Annots.toJ (a : Annots) : J :=
  J.obj (optEntry "audience" (a.audience.map (fun l => J.arr (l.map Role.toJ)))
    ++ optEntry "priority" (a.priority.map J.num))

def decodeRoleList : List J → Except String (List Role)
  | [] => Except.ok []
  | j :: rest => do
      let r ← Role.fromJ j
      let rs ← decodeRoleList rest
      Except.ok (r :: rs)

/-- Validation of `Annotations`: a string audience becomes a one-element
list; priority must lie in `[0, 1]`; unknown fields are ignored. -/
def Annots.fromJ : J → Except String Annots
  | J.obj fields => do
      let audience ← match J.getKey fields "audience" with
        | none => Except.ok none
        | some (J.str s) => do
            let r ← Role.fromJ (J.str s)
            Except.ok (some [r])
        | some (J.arr l) => do
            let rs ← decodeRoleList l
            Except.ok (some rs)
        | some _ => Except.error "invalid audience"
      let priority ← match J.getKey fields "priority" with
        | none => Except.ok none
        | some (J.num q) =>
            if 0 ≤ q ∧ q ≤ 1 then Except.ok (some q)
            else Except.error "priority must be between 0 and 1"
        | some _ => Except.error "invalid priority"
      Except.ok ⟨audience, priority⟩
  | _ => Except.error "annotations must be an object"

/-- `TextContent | ImageContent | AudioContent`, with the `type` tag at its
frozen default. -/
inductive Content where
  | text (text : String) (annots : Option Annots) : Content
  | image (data : String) (mime_type : String) (annots : Option Annots) : Content
  | audio (data : String) (mime_type : String) (annots : Option Annots) : Content
deriving DecidableEq, Repr

def Content.toJ : Content → J
  | Content.text t a =>
      J.obj ([("type", J.str "text"), ("text", J.str t)]
        ++ optEntry "annotations" (a.map Annots.toJ))
  | Content.image d m a =>
      J.obj ([("type", J.str "image"), ("mimeType", J.str m), ("data", J.str d)]
        ++ optEntry "annotations" (a.map Annots.toJ))
  | Content.audio d m a =>
      J.obj ([("type", J.str "audio"), ("mimeType", J.str m), ("data", J.str d)]
        ++ optEntry "annotations" (a.map Annots.toJ))

def decodeAnnotsField (fields : List (String × J)) :
    Except String (Option Annots) :=
  match J.getKey fields "annotations" with
  | none => Except.ok none
  | some j => do
      let a ← Annots.fromJ j
      Except.ok (some a)

def Content.fromJ : J → Except String Content
  | J.obj fields =>
    (match J.getKey fields "type" with
     | some (J.str "text") => do
        let a ← decodeAnnotsField fields
        match J.getKey fields "text" with
        | some (J.str t) => Except.ok (Content.text t a)
        | _ => Except.error "text content requires text"
     | some (J.str "image") => do
        let a ← decodeAnnotsField fields
        match J.getKey fields "mimeType", J.getKey fields "data" with
        | some (J.str m), some (J.str d) => Except.ok (Content.image d m a)
        | _, _ => Except.error "image content requires mimeType and data"
     | some (J.str "audio") => do
        let a ← decodeAnnotsField fields
        match J.getKey fields "mimeType", J.getKey fields "data" with
        | some (J.str m), some (J.str d) => Except.ok (Content.audio d m a)
        | _, _ => Except.error "audio content requires mimeType and data"
     | _ => Except.error "unknown content type")
  | _ => Except.error "content must be an object"

/-- `SamplingMessage`: a role and a content item. -/
structure SamplingMessage where
  role : Role
  content : Content
deriving DecidableEq, Repr

def SamplingMessage.toJ (m : SamplingMessage) : J :=
  J.obj [("role", Role.toJ m.role), ("content", Content.toJ m.content)]

def SamplingMessage.fromJ : J → Except String SamplingMessage
  | J.obj fields => do
      let role ← match J.getKey fields "role" with
        | some j => Role.fromJ j
        | none => Except.error "message requires role"
      let content ← match J.getKey fields "content" with
        | some j => Content.fromJ j
        | none => Except.error "message requires content"
      Except.ok ⟨role, content⟩
  | _ => Except.error "message must be an object"

def decodeMessages : List J → Except String (List SamplingMessage)
  | [] => Except.ok []
  | j :: rest => do
      let m ← SamplingMessage.fromJ j
      let ms ← decodeMessages rest
      Except.ok (m :: ms)

/-- `ModelPreferences`: hints and three priorities, each validated into
`[0, 1]`. -/
structure ModelPreferences where
  hints : Option (List String) := none
  cost_priority : Option Rat := none
  speed_priority : Option Rat := none
  intelligence_priority : Option Rat := none
deriving DecidableEq, Repr

def ModelPreferences.toJ (p : ModelPreferences) : J :=
  J.obj (optEntry "hints" (p.hints.map (fun l => J.arr (l.map J.str)))
    ++ optEntry "costPriority" (p.cost_priority.map J.num)
    ++ optEntry "speedPriority" (p.speed_priority.map J.num)
    ++ optEntry "intelligencePriority" (p.intelligence_priority.map J.num))

def decodeStringList : List J → Except String (List String)
  | [] => Except.ok []
  | J.str s :: rest => do
      let ss ← decodeStringList rest
      Except.ok (s :: ss)
  | _ :: _ => Except.error "expected a string"

def decodePriority (k : String) (fields : List (String × J)) :
    Except String (Option Rat) :=
  match J.getKey fields k with
  | none => Except.ok none
  | some (J.num q) =>
      if 0 ≤ q ∧ q ≤ 1 then Except.ok (some q)
      else Except.error "Priority must be between 0 and 1"
  | some _ => Except.error "priority must be a number"

def ModelPreferences.fromJ : J → Except String ModelPreferences
  | J.obj fields => do
      let hints ← match J.getKey fields "hints" with
        | none => Except.ok none
        | some (J.arr l) => do
            let ss ← decodeStringList l
            Except.ok (some ss)
        | some _ => Except.error "hints must be a list"
      let c ← decodePriority "costPriority" fields
      let s ← decodePriority "speedPriority" fields
      let i ← decodePriority "intelligencePriority" fields
      Except.ok ⟨hints, c, s, i⟩
  | _ => Except.error "modelPreferences must be an object"

/-- `Literal["none", "thisServer", "allServers"]`. -/
inductive IncludeContext where
  | noContext : IncludeContext
  | thisServer : IncludeContext
  | allServers : IncludeContext
deriving DecidableEq, Repr

def IncludeContext.toJ : IncludeContext → J
  | IncludeContext.noContext => J.str "none"
  | IncludeContext.thisServer => J.str "thisServer"
  | IncludeContext.allServers => J.str "allServers"

def IncludeContext.fromJ : J → Except String IncludeContext
  | J.str "none" => Except.ok IncludeContext.noContext
  | J.str "thisServer" => Except.ok IncludeContext.thisServer
  | J.str "allServers" => Except.ok IncludeContext.allServers
  | _ => Except.error "invalid includeContext"

/-- A `ProgressToken` (str or int) read off a JSON value, as pydantic
validates it. -/
def decodeRId : J → Except String RId
  | J.num q => if q.den = 1 then Except.ok (Sum.inl q.num)
               else Except.error "progressToken must be int or str"
  | J.str s => Except.ok (Sum.inr s)
  | _ => Except.error "progressToken must be int or str"

end Protocol

namespace Protocol

/-- `CreateMessageRequest` (`sampling.py`): the base `Request` fields
`progress_token` / `metadata` plus the sampling fields; `llm_metadata` is
the provider-specific slot distinct from MCP `metadata`. -/
structure CreateMessageRequest where
  progress_token : Option RId := none
  metadata : Option (List (String × J)) := none
  messages : List SamplingMessage
  model_preferences : Option ModelPreferences := none
  system_prompt : Option String := none
  include_context : Option IncludeContext := none
  temperature : Option Rat := none
  max_tokens : Int
  stop_sequences : Option (List String) := none
  llm_metadata : Option (List (String × J)) := none

/-- The `model_dump(exclude={method, progress_token, metadata,
llm_metadata}, by_alias=True, exclude_none=True, mode="json")` of a
`CreateMessageRequest`, fields in declaration order. -/
def CreateMessageRequest.dumpParams (x : CreateMessageRequest) :
    List (String × J) :=
  [("messages", J.arr (x.messages.map SamplingMessage.toJ))]
    ++ optEntry "modelPreferences" (x.model_preferences.map ModelPreferences.toJ)
    ++ optEntry "systemPrompt" (x.system_prompt.map J.str)
    ++ optEntry "includeContext" (x.include_context.map IncludeContext.toJ)
    ++ optEntry "temperature" (x.temperature.map J.num)
    ++ [("maxTokens", J.num x.max_tokens)]
    ++ optEntry "stopSequences"
         (x.stop_sequences.map (fun l => J.arr (l.map J.str)))

/-- The `_meta` dict built by `to_protocol`: the MCP metadata when truthy,
then `progressToken` assigned on top. -/
def CreateMessageRequest.dumpMeta (x : CreateMessageRequest) :
    List (String × J) :=
  let meta := if truthy x.metadata then x.metadata.getD [] else []
  match x.progress_token with
  | some pt => J.setKey meta "progressToken" (ridToJ pt)
  | none => meta

/-- `CreateMessageRequest.to_protocol`: dump the plain fields into
`params`; put a truthy `llm_metadata` under `params["metadata"]`; put the
truthy MCP metadata (with `progressToken`) under `params["_meta"]`; attach
`params` when non-empty. -/
def CreateMessageRequest.to_protocol (x : CreateMessageRequest) :
    List (String × J) :=
  let params := x.dumpParams
  let params :=
    if truthy x.llm_metadata
    then J.setKey params "metadata" (J.obj (x.llm_metadata.getD []))
    else params
  let meta := x.dumpMeta
  let params :=
    if meta.isEmpty then params else J.setKey params "_meta" (J.obj meta)
  let result : List (String × J) := [("method", J.str "sampling/createMessage")]
  if params.isEmpty then result else J.setKey result "params" (J.obj params)

/-- `CreateMessageRequest.from_protocol` composed with pydantic's
validation of the constructor arguments: read `params` (default `{}`) and
`params["_meta"]` (default `{}`); `progress_token` from
`_meta.progressToken`; MCP metadata is `_meta` minus `progressToken`, when
non-empty; `llm_metadata` is `params["metadata"]` when present and truthy;
the remaining fields are read by alias and validated; `method` and
`messages` and `maxTokens` are required. -/
def readParams (data : List (String × J)) :
    Except String (List (String × J)) :=
  match J.getKey data "params" with
  | none => Except.ok []
  | some (J.obj p) => Except.ok p
  | some _ => Except.error "params must be an object"

def readMeta (params : List (String × J)) :
    Except String (List (String × J)) :=
  match J.getKey params "_meta" with
  | none => Except.ok []
  | some (J.obj m) => Except.ok m
  | some _ => Except.error "_meta must be an object"

def checkMethod (data : List (String × J)) : Except String Unit :=
  match J.getKey data "method" with
  | some (J.str "sampling/createMessage") => Except.ok ()
  | some _ => Except.error "method must be sampling/createMessage"
  | none => Except.error "method is required"

def readProgressToken (meta : List (String × J)) :
    Except String (Option RId) :=
  match J.getKey meta "progressToken" with
  | none => Except.ok none
  | some j => do
      let pt ← decodeRId j
      Except.ok (some pt)

/-- `general_meta = {k: v for k, v in meta.items() if k != "progressToken"}`
kept only when `meta` and `general_meta` are truthy. -/
def computeMetadata (meta : List (String × J)) :
    Option (List (String × J)) :=
  let general_meta := meta.filter (fun f => f.1 ≠ "progressToken")
  if !meta.isEmpty ∧ !general_meta.isEmpty then some general_meta else none

def readLlmMetadata (params : List (String × J)) :
    Except String (Option (List (String × J))) :=
  match J.getKey params "metadata" with
  | none => Except.ok none
  | some v =>
      if jTruthy v then
        match v with
        | J.obj m => Except.ok (some m)
        | _ => Except.error "llm metadata must be an object"
      else Except.ok none

def readMessages (params : List (String × J)) :
    Except String (List SamplingMessage) :=
  match J.getKey params "messages" with
  | some (J.arr l) => decodeMessages l
  | some _ => Except.error "messages must be a list"
  | none => Except.error "messages is required"

def readModelPreferences (params : List (String × J)) :
    Except String (Option ModelPreferences) :=
  match J.getKey params "modelPreferences" with
  | none => Except.ok none
  | some j => do
      let p ← ModelPreferences.fromJ j
      Except.ok (some p)

def readSystemPrompt (params : List (String × J)) :
    Except String (Option String) :=
  match J.getKey params "systemPrompt" with
  | none => Except.ok none
  | some (J.str s) => Except.ok (some s)
  | some _ => Except.error "systemPrompt must be a string"

def readIncludeContext (params : List (String × J)) :
    Except String (Option IncludeContext) :=
  match J.getKey params "includeContext" with
  | none => Except.ok none
  | some j => do
      let c ← IncludeContext.fromJ j
      Except.ok (some c)

def readTemperature (params : List (String × J)) :
    Except String (Option Rat) :=
  match J.getKey params "temperature" with
  | none => Except.ok none
  | some (J.num q) => Except.ok (some q)
  | some _ => Except.error "temperature must be a number"

def readMaxTokens (params : List (String × J)) : Except String Int :=
  match J.getKey params "maxTokens" with
  | some (J.num q) =>
      if q.den = 1 then Except.ok q.num
      else Except.error "maxTokens must be an integer"
  | some _ => Except.error "maxTokens must be an integer"
  | none => Except.error "maxTokens is required"

def readStopSequences (params : List (String × J)) :
    Except String (Option (List String)) :=
  match J.getKey params "stopSequences" with
  | none => Except.ok none
  | some (J.arr l) => do
      let ss ← decodeStringList l
      Except.ok (some ss)
  | some _ => Except.error "stopSequences must be a list"

def CreateMessageRequest.from_protocol (data : List (String × J)) :
    Except String CreateMessageRequest := do
  let params ← readParams data
  let meta ← readMeta params
  let _ ← checkMethod data
  let progress_token ← readProgressToken meta
  let metadata := computeMetadata meta
  let llm_metadata ← readLlmMetadata params
  let messages ← readMessages params
  let model_preferences ← readModelPreferences params
  let system_prompt ← readSystemPrompt params
  let include_context ← readIncludeContext params
  let temperature ← readTemperature params
  let max_tokens ← readMaxTokens params
  let stop_sequences ← readStopSequences params
  Except.ok ⟨progress_token, metadata, messages, model_preferences,
    system_prompt, include_context, temperature, max_tokens,
    stop_sequences, llm_metadata⟩

end Protocol

namespace Protocol

theorem exceptBind_ok {α β : Type} (a : α) (f : α → Except String β) :
    ((Except.ok a : Except String α) >>= f) = f a := rfl

theorem exceptBind_error {α β : Type} (e : String)
    (f : α → Except String β) :
    ((Except.error e : Except String α) >>= f) = Except.error e := rfl

theorem getKey_cons (p : String × J) (l : List (String × J)) (k : String) :
    J.getKey (p :: l) k = if p.1 = k then some p.2 else J.getKey l k := by
  by_cases h : p.1 = k
  · simp [J.getKey, List.find?_cons, h]
  · simp [J.getKey, List.find?_cons, h]

theorem getKey_append (l1 l2 : List (String × J)) (k : String) :
    J.getKey (l1 ++ l2) k =
      match J.getKey l1 k with
      | some v => some v
      | none => J.getKey l2 k := by
  induction l1 with
  | nil => simp [J.getKey]
  | cons p rest ih =>
    by_cases h : p.1 = k
    · simp [getKey_cons, h]
    · simp only [List.cons_append, getKey_cons, h, if_neg, ite_false]
      exact ih

theorem getKey_optEntry_self (k : String) (v : Option J) :
    J.getKey (optEntry k v) k = v := by
  cases v <;> simp [optEntry, J.getKey, List.find?]

theorem getKey_optEntry_ne (k k' : String) (v : Option J) (h : k' ≠ k) :
    J.getKey (optEntry k' v) k = none := by
  cases v <;> simp [optEntry, J.getKey, List.find?, h]

theorem getKey_none_forall {l : List (String × J)} {k : String}
    (h : J.getKey l k = none) : ∀ p ∈ l, p.1 ≠ k := by
  intro p hp
  induction l with
  | nil => simp at hp
  | cons q rest ih =>
    rw [getKey_cons] at h
    by_cases hq : q.1 = k
    · rw [if_pos hq] at h; cases h
    · rw [if_neg hq] at h
      rcases List.mem_cons.mp hp with rfl | hmem
      · exact hq
      · exact ih h hmem

theorem setKey_of_not_has {l : List (String × J)} {k : String}
    (h : J.getKey l k = none) (v : J) :
    J.setKey l k v = l ++ [(k, v)] := by
  simp [J.setKey, J.hasKey, h]

theorem Role.fromJ_toJ_role (r : Role) : Role.fromJ (Role.toJ r) = Except.ok r := by
  cases r <;> rfl

theorem decodeRoleList_map (l : List Role) :
    decodeRoleList (l.map Role.toJ) = Except.ok l := by
  induction l with
  | nil => rfl
  | cons r rest ih =>
    rw [List.map_cons, decodeRoleList, Role.fromJ_toJ_role, exceptBind_ok, ih]
    rfl

theorem decodeStringList_map (l : List String) :
    decodeStringList (l.map J.str) = Except.ok l := by
  induction l with
  | nil => rfl
  | cons s rest ih =>
    rw [List.map_cons, decodeStringList, ih]
    rfl

theorem decodeRId_ridToJ (pt : RId) : decodeRId (ridToJ pt) = Except.ok pt := by
  cases pt with
  | inl n => simp [ridToJ, decodeRId]
  | inr s => rfl

theorem Annots.fromJ_toJ_annots (a : Annots)
    (hval : ∀ q, a.priority = some q → 0 ≤ q ∧ q ≤ 1) :
    Annots.fromJ (Annots.toJ a) = Except.ok a := by
  obtain ⟨aud, pri⟩ := a
  cases aud with
  | none =>
    cases pri with
    | none => rfl
    | some q =>
      obtain ⟨h1, h2⟩ := hval q rfl
      simp [Annots.toJ, Annots.fromJ, optEntry, getKey_cons, J.getKey,
        exceptBind_ok, h1, h2]
  | some roles =>
    cases pri with
    | none =>
      simp [Annots.toJ, Annots.fromJ, optEntry, getKey_cons, J.getKey,
        exceptBind_ok, decodeRoleList_map]
    | some q =>
      obtain ⟨h1, h2⟩ := hval q rfl
      simp [Annots.toJ, Annots.fromJ, optEntry, getKey_cons, J.getKey,
        exceptBind_ok, decodeRoleList_map, h1, h2]

end Protocol

namespace Protocol

/-- The annotation slot of a content item. -/
def Content.annots : Content → Option Annots
  | Content.text _ a => a
  | Content.image _ _ a => a
  | Content.audio _ _ a => a

/-- Validity enforced by construction in the Python models: annotation
priorities lie in `[0, 1]`. -/
def Annots.validPriority (a : Annots) : Prop :=
  ∀ q, a.priority = some q → 0 ≤ q ∧ q ≤ 1

theorem getKey_append_left_none {l1 : List (String × J)}
    (l2 : List (String × J)) (k : String) (h : J.getKey l1 k = none) :
    J.getKey (l1 ++ l2) k = J.getKey l2 k := by
  rw [getKey_append, h]

theorem decodeAnnotsField_some (pre : List (String × J)) (a : Annots)
    (hpre : J.getKey pre "annotations" = none)
    (hval : a.validPriority) :
    decodeAnnotsField (pre ++ optEntry "annotations" (some (Annots.toJ a)))
      = Except.ok (some a) := by
  simp only [decodeAnnotsField, getKey_append_left_none _ _ hpre,
    getKey_optEntry_self]
  rw [Annots.fromJ_toJ_annots a hval]
  rfl

theorem decodeAnnotsField_none (pre : List (String × J))
    (hpre : J.getKey pre "annotations" = none) :
    decodeAnnotsField (pre ++ optEntry "annotations" none)
      = Except.ok none := by
  simp only [decodeAnnotsField, getKey_append_left_none _ _ hpre,
    getKey_optEntry_self]

theorem Content.fromJ_toJ_content (c : Content)
    (hval : ∀ an, c.annots = some an → an.validPriority) :
    Content.fromJ (Content.toJ c) = Except.ok c := by
  cases c with
  | text t a =>
    cases a with
    | none =>
      have hann := decodeAnnotsField_none
        [("type", J.str "text"), ("text", J.str t)] rfl
      have htype : J.getKey ([("type", J.str "text"), ("text", J.str t)]
          ++ optEntry "annotations" (none : Option J)) "type"
          = some (J.str "text") := rfl
      have htext : J.getKey ([("type", J.str "text"), ("text", J.str t)]
          ++ optEntry "annotations" (none : Option J)) "text"
          = some (J.str t) := rfl
      simp only [Content.toJ, Content.fromJ, Option.map_none', htype, htext,
        hann, exceptBind_ok]
    | some an =>
      have hann := decodeAnnotsField_some
        [("type", J.str "text"), ("text", J.str t)] an rfl (hval an rfl)
      have htype : J.getKey ([("type", J.str "text"), ("text", J.str t)]
          ++ optEntry "annotations" (some (Annots.toJ an))) "type"
          = some (J.str "text") := rfl
      have htext : J.getKey ([("type", J.str "text"), ("text", J.str t)]
          ++ optEntry "annotations" (some (Annots.toJ an))) "text"
          = some (J.str t) := rfl
      simp only [Content.toJ, Content.fromJ, Option.map_some', htype, htext,
        hann, exceptBind_ok]
  | image d m a =>
    cases a with
    | none =>
      have hann := decodeAnnotsField_none
        [("type", J.str "image"), ("mimeType", J.str m), ("data", J.str d)] rfl
      have htype : J.getKey ([("type", J.str "image"), ("mimeType", J.str m),
          ("data", J.str d)] ++ optEntry "annotations" (none : Option J))
          "type" = some (J.str "image") := rfl
      have hmime : J.getKey ([("type", J.str "image"), ("mimeType", J.str m),
          ("data", J.str d)] ++ optEntry "annotations" (none : Option J))
          "mimeType" = some (J.str m) := rfl
      have hdata : J.getKey ([("type", J.str "image"), ("mimeType", J.str m),
          ("data", J.str d)] ++ optEntry "annotations" (none : Option J))
          "data" = some (J.str d) := rfl
      simp only [Content.toJ, Content.fromJ, Option.map_none', htype, hmime,
        hdata, hann, exceptBind_ok]
    | some an =>
      have hann := decodeAnnotsField_some
        [("type", J.str "image"), ("mimeType", J.str m), ("data", J.str d)]
        an rfl (hval an rfl)
      have htype : J.getKey ([("type", J.str "image"), ("mimeType", J.str m),
          ("data", J.str d)] ++ optEntry "annotations"
            (some (Annots.toJ an))) "type" = some (J.str "image") := rfl
      have hmime : J.getKey ([("type", J.str "image"), ("mimeType", J.str m),
          ("data", J.str d)] ++ optEntry "annotations"
            (some (Annots.toJ an))) "mimeType" = some (J.str m) := rfl
      have hdata : J.getKey ([("type", J.str "image"), ("mimeType", J.str m),
          ("data", J.str d)] ++ optEntry "annotations"
            (some (Annots.toJ an))) "data" = some (J.str d) := rfl
      simp only [Content.toJ, Content.fromJ, Option.map_some', htype, hmime,
        hdata, hann, exceptBind_ok]
  | audio d m a =>
    cases a with
    | none =>
      have hann := decodeAnnotsField_none
        [("type", J.str "audio"), ("mimeType", J.str m), ("data", J.str d)] rfl
      have htype : J.getKey ([("type", J.str "audio"), ("mimeType", J.str m),
          ("data", J.str d)] ++ optEntry "annotations" (none : Option J))
          "type" = some (J.str "audio") := rfl
      have hmime : J.getKey ([("type", J.str "audio"), ("mimeType", J.str m),
          ("data", J.str d)] ++ optEntry "annotations" (none : Option J))
          "mimeType" = some (J.str m) := rfl
      have hdata : J.getKey ([("type", J.str "audio"), ("mimeType", J.str m),
          ("data", J.str d)] ++ optEntry "annotations" (none : Option J))
          "data" = some (J.str d) := rfl
      simp only [Content.toJ, Content.fromJ, Option.map_none', htype, hmime,
        hdata, hann, exceptBind_ok]
    | some an =>
      have hann := decodeAnnotsField_some
        [("type", J.str "audio"), ("mimeType", J.str m), ("data", J.str d)]
        an rfl (hval an rfl)
      have htype : J.getKey ([("type", J.str "audio"), ("mimeType", J.str m),
          ("data", J.str d)] ++ optEntry "annotations"
            (some (Annots.toJ an))) "type" = some (J.str "audio") := rfl
      have hmime : J.getKey ([("type", J.str "audio"), ("mimeType", J.str m),
          ("data", J.str d)] ++ optEntry "annotations"
            (some (Annots.toJ an))) "mimeType" = some (J.str m) := rfl
      have hdata : J.getKey ([("type", J.str "audio"), ("mimeType", J.str m),
          ("data", J.str d)] ++ optEntry "annotations"
            (some (Annots.toJ an))) "data" = some (J.str d) := rfl
      simp only [Content.toJ, Content.fromJ, Option.map_some', htype, hmime,
        hdata, hann, exceptBind_ok]

end Protocol

namespace Protocol

theorem SamplingMessage.fromJ_toJ_msg (msg : SamplingMessage)
    (hval : ∀ an, msg.content.annots = some an → an.validPriority) :
    SamplingMessage.fromJ (SamplingMessage.toJ msg) = Except.ok msg := by
  obtain ⟨r, c⟩ := msg
  have hrole : J.getKey [("role", Role.toJ r), ("content", Content.toJ c)]
      "role" = some (Role.toJ r) := rfl
  have hcont : J.getKey [("role", Role.toJ r), ("content", Content.toJ c)]
      "content" = some (Content.toJ c) := rfl
  simp only [SamplingMessage.toJ, SamplingMessage.fromJ, hrole, hcont,
    Role.fromJ_toJ_role, Content.fromJ_toJ_content c hval, exceptBind_ok]

theorem decodeMessages_map (l : List SamplingMessage)
    (hval : ∀ m ∈ l, ∀ an, m.content.annots = some an → an.validPriority) :
    decodeMessages (l.map SamplingMessage.toJ) = Except.ok l := by
  induction l with
  | nil => rfl
  | cons m rest ih =>
    rw [List.map_cons, decodeMessages,
      SamplingMessage.fromJ_toJ_msg m (hval m (List.mem_cons_self m rest)),
      exceptBind_ok,
      ih (fun m' h' => hval m' (List.mem_cons_of_mem _ h'))]
    rfl

theorem IncludeContext.fromJ_toJ_ic (ic : IncludeContext) :
    IncludeContext.fromJ (IncludeContext.toJ ic) = Except.ok ic := by
  cases ic <;> rfl

theorem ModelPreferences.fromJ_toJ_prefs (p : ModelPreferences)
    (hc : ∀ q, p.cost_priority = some q → 0 ≤ q ∧ q ≤ 1)
    (hs : ∀ q, p.speed_priority = some q → 0 ≤ q ∧ q ≤ 1)
    (hi : ∀ q, p.intelligence_priority = some q → 0 ≤ q ∧ q ≤ 1) :
    ModelPreferences.fromJ (ModelPreferences.toJ p) = Except.ok p := by
  obtain ⟨h, c, s, i⟩ := p
  simp only at hc hs hi
  cases h <;> cases c <;> cases s <;> cases i <;>
    simp_all [ModelPreferences.toJ, ModelPreferences.fromJ, decodePriority,
      optEntry, getKey_cons, J.getKey, List.find?, decodeStringList_map,
      exceptBind_ok]

end Protocol

namespace Protocol

theorem getKey_nil (k : String) : J.getKey [] k = none := rfl

theorem getKey_append_left_some {l1 l2 : List (String × J)} {k : String}
    {v : J} (h : J.getKey l1 k = some v) :
    J.getKey (l1 ++ l2) k = some v := by
  rw [getKey_append, h]

theorem dumpParams_messages (x : CreateMessageRequest) :
    J.getKey x.dumpParams "messages"
      = some (J.arr (x.messages.map SamplingMessage.toJ)) := rfl

theorem dumpParams_modelPreferences (x : CreateMessageRequest) :
    J.getKey x.dumpParams "modelPreferences"
      = x.model_preferences.map ModelPreferences.toJ := by
  cases h : x.model_preferences <;>
    simp [CreateMessageRequest.dumpParams, getKey_cons, getKey_append,
      getKey_optEntry_self, getKey_optEntry_ne, getKey_nil, h]

theorem dumpParams_systemPrompt (x : CreateMessageRequest) :
    J.getKey x.dumpParams "systemPrompt" = x.system_prompt.map J.str := by
  cases h : x.system_prompt <;>
    simp [CreateMessageRequest.dumpParams, getKey_cons, getKey_append,
      getKey_optEntry_self, getKey_optEntry_ne, getKey_nil, h]

theorem dumpParams_includeContext (x : CreateMessageRequest) :
    J.getKey x.dumpParams "includeContext"
      = x.include_context.map IncludeContext.toJ := by
  cases h : x.include_context <;>
    simp [CreateMessageRequest.dumpParams, getKey_cons, getKey_append,
      getKey_optEntry_self, getKey_optEntry_ne, getKey_nil, h]

theorem dumpParams_temperature (x : CreateMessageRequest) :
    J.getKey x.dumpParams "temperature" = x.temperature.map J.num := by
  cases h : x.temperature <;>
    simp [CreateMessageRequest.dumpParams, getKey_cons, getKey_append,
      getKey_optEntry_self, getKey_optEntry_ne, getKey_nil, h]

theorem dumpParams_maxTokens (x : CreateMessageRequest) :
    J.getKey x.dumpParams "maxTokens" = some (J.num x.max_tokens) := by
  simp [CreateMessageRequest.dumpParams, getKey_cons, getKey_append,
    getKey_optEntry_self, getKey_optEntry_ne, getKey_nil]

theorem dumpParams_stopSequences (x : CreateMessageRequest) :
    J.getKey x.dumpParams "stopSequences"
      = x.stop_sequences.map (fun l => J.arr (l.map J.str)) := by
  cases h : x.stop_sequences <;>
    simp [CreateMessageRequest.dumpParams, getKey_cons, getKey_append,
      getKey_optEntry_self, getKey_optEntry_ne, getKey_nil, h]

theorem dumpParams_metadata_none (x : CreateMessageRequest) :
    J.getKey x.dumpParams "metadata" = none := by
  simp [CreateMessageRequest.dumpParams, getKey_cons, getKey_append,
    getKey_optEntry_ne, getKey_nil]

theorem dumpParams_meta_none (x : CreateMessageRequest) :
    J.getKey x.dumpParams "_meta" = none := by
  simp [CreateMessageRequest.dumpParams, getKey_cons, getKey_append,
    getKey_optEntry_ne, getKey_nil]

theorem getKey_PF (x : CreateMessageRequest) (a b : Option J) (k : String)
    (hk1 : k ≠ "metadata") (hk2 : k ≠ "_meta") :
    J.getKey (x.dumpParams ++ optEntry "metadata" a ++ optEntry "_meta" b) k
      = J.getKey x.dumpParams k := by
  cases hd : J.getKey x.dumpParams k with
  | some v =>
    exact getKey_append_left_some (getKey_append_left_some hd)
  | none =>
    have h1 : J.getKey (x.dumpParams ++ optEntry "metadata" a) k = none := by
      rw [getKey_append_left_none _ _ hd]
      exact getKey_optEntry_ne _ _ _ (Ne.symm hk1)
    rw [getKey_append_left_none _ _ h1]
    exact getKey_optEntry_ne _ _ _ (Ne.symm hk2)

theorem getKey_PF_llm (x : CreateMessageRequest) (a b : Option J) :
    J.getKey (x.dumpParams ++ optEntry "metadata" a ++ optEntry "_meta" b)
      "metadata" = a := by
  have h1 : J.getKey (x.dumpParams ++ optEntry "metadata" a) "metadata" = a := by
    rw [getKey_append_left_none _ _ (dumpParams_metadata_none x)]
    exact getKey_optEntry_self _ _
  cases ha : a with
  | some v => rw [ha] at h1; exact getKey_append_left_some h1
  | none =>
    rw [ha] at h1
    rw [getKey_append_left_none _ _ h1]
    exact getKey_optEntry_ne _ _ _ (by decide)

theorem getKey_PF_meta (x : CreateMessageRequest) (a b : Option J) :
    J.getKey (x.dumpParams ++ optEntry "metadata" a ++ optEntry "_meta" b)
      "_meta" = b := by
  have h1 : J.getKey (x.dumpParams ++ optEntry "metadata" a) "_meta" = none := by
    rw [getKey_append_left_none _ _ (dumpParams_meta_none x)]
    exact getKey_optEntry_ne _ _ _ (by decide)
  rw [getKey_append_left_none _ _ h1]
  exact getKey_optEntry_self _ _

end Protocol

namespace Protocol

theorem isEmpty_false_of_ne {α : Type} {l : List α} (h : l ≠ []) :
    l.isEmpty = false := by
  cases l with
  | nil => exact absurd rfl h
  | cons a rest => rfl

theorem readParams_eq (pf : List (String × J)) :
    readParams [("method", J.str "sampling/createMessage"),
      ("params", J.obj pf)] = Except.ok pf := rfl

theorem checkMethod_eq (pf : List (String × J)) :
    checkMethod [("method", J.str "sampling/createMessage"),
      ("params", J.obj pf)] = Except.ok () := rfl

theorem readMeta_of {params : List (String × J)}
    {o : Option (List (String × J))}
    (h : J.getKey params "_meta" = o.map J.obj) :
    readMeta params = Except.ok (o.getD []) := by
  cases o <;> simp_all [readMeta]

theorem readProgressToken_of {meta : List (String × J)} {o : Option RId}
    (h : J.getKey meta "progressToken" = o.map ridToJ) :
    readProgressToken meta = Except.ok o := by
  cases o <;> simp_all [readProgressToken, decodeRId_ridToJ, exceptBind_ok]

theorem readLlmMetadata_of_none {params : List (String × J)}
    (h : J.getKey params "metadata" = none) :
    readLlmMetadata params = Except.ok none := by
  simp [readLlmMetadata, h]

theorem readLlmMetadata_of_some {params : List (String × J)}
    {m : List (String × J)} (h : J.getKey params "metadata" = some (J.obj m))
    (hne : m ≠ []) :
    readLlmMetadata params = Except.ok (some m) := by
  simp [readLlmMetadata, h, jTruthy, isEmpty_false_of_ne hne]

theorem readMessages_of {params : List (String × J)}
    {l : List SamplingMessage}
    (h : J.getKey params "messages" = some (J.arr (l.map SamplingMessage.toJ)))
    (hval : ∀ m ∈ l, ∀ an, m.content.annots = some an → an.validPriority) :
    readMessages params = Except.ok l := by
  simp [readMessages, h, decodeMessages_map l hval]

theorem readModelPreferences_of {params : List (String × J)}
    {o : Option ModelPreferences}
    (h : J.getKey params "modelPreferences" = o.map ModelPreferences.toJ)
    (hval : ∀ p, o = some p →
      (∀ q, p.cost_priority = some q → 0 ≤ q ∧ q ≤ 1)
      ∧ (∀ q, p.speed_priority = some q → 0 ≤ q ∧ q ≤ 1)
      ∧ (∀ q, p.intelligence_priority = some q → 0 ≤ q ∧ q ≤ 1)) :
    readModelPreferences params = Except.ok o := by
  cases o with
  | none => simp_all [readModelPreferences]
  | some p =>
    obtain ⟨hc, hs, hi⟩ := hval p rfl
    simp_all [readModelPreferences, ModelPreferences.fromJ_toJ_prefs p hc hs hi,
      exceptBind_ok]

theorem readSystemPrompt_of {params : List (String × J)} {o : Option String}
    (h : J.getKey params "systemPrompt" = o.map J.str) :
    readSystemPrompt params = Except.ok o := by
  cases o <;> simp_all [readSystemPrompt]

theorem readIncludeContext_of {params : List (String × J)}
    {o : Option IncludeContext}
    (h : J.getKey params "includeContext" = o.map IncludeContext.toJ) :
    readIncludeContext params = Except.ok o := by
  cases o <;> simp_all [readIncludeContext, IncludeContext.fromJ_toJ_ic,
    exceptBind_ok]

theorem readTemperature_of {params : List (String × J)} {o : Option Rat}
    (h : J.getKey params "temperature" = o.map J.num) :
    readTemperature params = Except.ok o := by
  cases o <;> simp_all [readTemperature]

theorem readMaxTokens_of {params : List (String × J)} {n : Int}
    (h : J.getKey params "maxTokens" = some (J.num n)) :
    readMaxTokens params = Except.ok n := by
  simp [readMaxTokens, h]

theorem readStopSequences_of {params : List (String × J)}
    {o : Option (List String)}
    (h : J.getKey params "stopSequences"
      = o.map (fun l => J.arr (l.map J.str))) :
    readStopSequences params = Except.ok o := by
  cases o <;> simp_all [readStopSequences, decodeStringList_map, exceptBind_ok]

end Protocol

namespace Protocol

theorem dumpMeta_eq (x : CreateMessageRequest)
    (h1 : ∀ m, x.metadata = some m → m ≠ [])
    (h2 : ∀ m, x.metadata = some m → J.getKey m "progressToken" = none) :
    x.dumpMeta = (x.metadata.getD [])
      ++ (match x.progress_token with
          | some pt => [("progressToken", ridToJ pt)]
          | none => []) := by
  cases hm : x.metadata with
  | none =>
    cases hp : x.progress_token with
    | none => simp [CreateMessageRequest.dumpMeta, truthy, hm, hp]
    | some pt =>
      simp [CreateMessageRequest.dumpMeta, truthy, hm, hp, J.setKey,
        J.hasKey, J.getKey]
  | some m =>
    have hne := isEmpty_false_of_ne (h1 m hm)
    cases hp : x.progress_token with
    | none => simp [CreateMessageRequest.dumpMeta, truthy, hm, hp, hne]
    | some pt =>
      rw [CreateMessageRequest.dumpMeta]
      simp only [hm, hp, truthy, hne, Bool.not_false, eq_self_iff_true,
        if_true, Option.getD_some]
      exact setKey_of_not_has (h2 m hm) _

theorem dumpMeta_progressToken (x : CreateMessageRequest)
    (h1 : ∀ m, x.metadata = some m → m ≠ [])
    (h2 : ∀ m, x.metadata = some m → J.getKey m "progressToken" = none) :
    J.getKey x.dumpMeta "progressToken" = x.progress_token.map ridToJ := by
  rw [dumpMeta_eq x h1 h2]
  have hbase : J.getKey (x.metadata.getD []) "progressToken" = none := by
    cases hm : x.metadata with
    | none => rfl
    | some m => exact h2 m hm
  cases hp : x.progress_token with
  | none =>
    rw [getKey_append_left_none _ _ hbase]
    rfl
  | some pt =>
    rw [getKey_append_left_none _ _ hbase]
    simp [getKey_cons]

theorem filter_eq_self_of_no_pt {m : List (String × J)}
    (h : J.getKey m "progressToken" = none) :
    m.filter (fun f => f.1 ≠ "progressToken") = m := by
  apply List.filter_eq_self.mpr
  intro p hp
  simp only [decide_eq_true_eq]
  exact getKey_none_forall h p hp

theorem computeMetadata_dumpMeta (x : CreateMessageRequest)
    (h1 : ∀ m, x.metadata = some m → m ≠ [])
    (h2 : ∀ m, x.metadata = some m → J.getKey m "progressToken" = none) :
    computeMetadata x.dumpMeta = x.metadata := by
  rw [computeMetadata, dumpMeta_eq x h1 h2]
  cases hm : x.metadata with
  | none =>
    cases hp : x.progress_token with
    | none => simp
    | some pt => simp
  | some m =>
    have hmne := h1 m hm
    have hfilter := filter_eq_self_of_no_pt (h2 m hm)
    cases hp : x.progress_token with
    | none =>
      simp only [Option.getD_some, List.append_nil, List.filter_append,
        hfilter]
      simp [isEmpty_false_of_ne hmne, hmne]
    | some pt =>
      simp only [Option.getD_some, List.filter_append, hfilter]
      simp [isEmpty_false_of_ne hmne, hmne]

theorem dumpParams_isEmpty_false (x : CreateMessageRequest) :
    x.dumpParams.isEmpty = false := rfl

theorem isEmpty_append_false {l1 : List (String × J)}
    (l2 : List (String × J))
    (h : l1.isEmpty = false) : (l1 ++ l2).isEmpty = false := by
  cases l1 with
  | nil => cases h
  | cons a rest => rfl

/-- Normal form of `to_protocol`: a `method` entry and a `params` object
made of the dumped fields, then the provider `metadata` slot, then the
`_meta` slot. -/
theorem to_protocol_eq (x : CreateMessageRequest) :
    CreateMessageRequest.to_protocol x
      = [("method", J.str "sampling/createMessage"),
         ("params", J.obj (x.dumpParams
           ++ optEntry "metadata"
                (if truthy x.llm_metadata
                 then some (J.obj (x.llm_metadata.getD [])) else none)
           ++ optEntry "_meta"
                (if x.dumpMeta.isEmpty then none
                 else some (J.obj x.dumpMeta))))] := by
  rw [CreateMessageRequest.to_protocol]
  by_cases hllm : truthy x.llm_metadata
  · rw [if_pos hllm,
      setKey_of_not_has (dumpParams_metadata_none x) (J.obj (x.llm_metadata.getD []))]
    have hmeta1 : J.getKey (x.dumpParams
        ++ [("metadata", J.obj (x.llm_metadata.getD []))]) "_meta" = none := by
      rw [getKey_append_left_none _ _ (dumpParams_meta_none x)]
      rfl
    by_cases hm : x.dumpMeta.isEmpty
    · rw [if_pos hm]
      have hne := isEmpty_append_false [("metadata",
        J.obj (x.llm_metadata.getD []))] (dumpParams_isEmpty_false x)
      rw [if_neg (by rw [hne]; exact Bool.false_ne_true)]
      rw [setKey_of_not_has (show J.getKey
        [("method", J.str "sampling/createMessage")] "params" = none from rfl)]
      simp [optEntry, if_pos hllm, if_pos hm]
    · rw [if_neg hm]
      rw [setKey_of_not_has hmeta1]
      have hne := isEmpty_append_false [("_meta", J.obj x.dumpMeta)]
        (isEmpty_append_false [("metadata",
          J.obj (x.llm_metadata.getD []))] (dumpParams_isEmpty_false x))
      rw [if_neg (by rw [hne]; exact Bool.false_ne_true)]
      rw [setKey_of_not_has (show J.getKey
        [("method", J.str "sampling/createMessage")] "params" = none from rfl)]
      simp [optEntry, if_pos hllm, if_neg hm]
  · rw [if_neg hllm]
    by_cases hm : x.dumpMeta.isEmpty
    · rw [if_pos hm]
      have hne := dumpParams_isEmpty_false x
      rw [if_neg (by rw [hne]; exact Bool.false_ne_true)]
      rw [setKey_of_not_has (show J.getKey
        [("method", J.str "sampling/createMessage")] "params" = none from rfl)]
      simp [optEntry, if_neg hllm, if_pos hm]
    · rw [if_neg hm]
      rw [setKey_of_not_has (dumpParams_meta_none x)]
      have hne := isEmpty_append_false [("_meta", J.obj x.dumpMeta)]
        (dumpParams_isEmpty_false x)
      rw [if_neg (by rw [hne]; exact Bool.false_ne_true)]
      rw [setKey_of_not_has (show J.getKey
        [("method", J.str "sampling/createMessage")] "params" = none from rfl)]
      simp [optEntry, if_neg hllm, if_neg hm]

end Protocol

namespace Protocol

theorem readLlmMetadata_of_map {params : List (String × J)}
    {o : Option (List (String × J))}
    (h : J.getKey params "metadata" = o.map J.obj)
    (hne : ∀ m, o = some m → m ≠ []) :
    readLlmMetadata params = Except.ok o := by
  cases o with
  | none => exact readLlmMetadata_of_none h
  | some m => exact readLlmMetadata_of_some h (hne m rfl)

/-- C9 (amended): for every `CreateMessageRequest` in normal form — the
two metadata slots are absent or non-empty dicts (an empty dict is falsy
and is dropped by `to_protocol`), the MCP metadata does not itself carry a
`progressToken` key (the explicit field wins and the slot would not come
back verbatim), and priorities are within the validated range `[0, 1]` —
`from_protocol (to_protocol x)` returns exactly `x` on all modeled fields;
moreover MCP metadata (with the progress token) is serialized under
`params._meta` while `llm_metadata` is serialized under `params.metadata`,
independently and unmerged. -/
theorem c9_create_message_round_trip (x : CreateMessageRequest)
    (h1 : ∀ m, x.metadata = some m → m ≠ [])
    (h2 : ∀ m, x.metadata = some m → J.getKey m "progressToken" = none)
    (h3 : ∀ m, x.llm_metadata = some m → m ≠ [])
    (h4 : ∀ m ∈ x.messages, ∀ an, m.content.annots = some an →
      an.validPriority)
    (h5 : ∀ p, x.model_preferences = some p →
      (∀ q, p.cost_priority = some q → 0 ≤ q ∧ q ≤ 1)
      ∧ (∀ q, p.speed_priority = some q → 0 ≤ q ∧ q ≤ 1)
      ∧ (∀ q, p.intelligence_priority = some q → 0 ≤ q ∧ q ≤ 1)) :
    CreateMessageRequest.from_protocol (CreateMessageRequest.to_protocol x)
      = Except.ok x
    ∧ (∀ m, x.llm_metadata = some m → ∃ params,
        J.getKey (CreateMessageRequest.to_protocol x) "params"
          = some (J.obj params)
        ∧ J.getKey params "metadata" = some (J.obj m))
    ∧ (∀ m, x.metadata = some m → ∃ params meta,
        J.getKey (CreateMessageRequest.to_protocol x) "params"
          = some (J.obj params)
        ∧ J.getKey params "_meta" = some (J.obj meta)
        ∧ meta.filter (fun f => f.1 ≠ "progressToken") = m)
    ∧ (∀ pt, x.progress_token = some pt → ∃ params meta,
        J.getKey (CreateMessageRequest.to_protocol x) "params"
          = some (J.obj params)
        ∧ J.getKey params "_meta" = some (J.obj meta)
        ∧ J.getKey meta "progressToken" = some (ridToJ pt)) := by
  have hmetaKey : ∀ a : Option J, J.getKey (x.dumpParams
      ++ optEntry "metadata" a
      ++ optEntry "_meta"
          (if x.dumpMeta.isEmpty then none else some (J.obj x.dumpMeta)))
      "_meta"
      = (if x.dumpMeta.isEmpty then (none : Option (List (String × J)))
         else some x.dumpMeta).map J.obj := by
    intro a
    rw [getKey_PF_meta]
    by_cases hm : x.dumpMeta.isEmpty <;> simp [hm]
  have hReadMeta : ∀ a : Option J, readMeta (x.dumpParams
      ++ optEntry "metadata" a
      ++ optEntry "_meta"
          (if x.dumpMeta.isEmpty then none else some (J.obj x.dumpMeta)))
      = Except.ok x.dumpMeta := by
    intro a
    rw [readMeta_of (hmetaKey a)]
    by_cases hm : x.dumpMeta.isEmpty
    · rw [if_pos hm]
      cases hdm : x.dumpMeta with
      | nil => rfl
      | cons p rest => rw [hdm] at hm; cases hm
    · rw [if_neg hm]
      rfl
  have hllmOpt : (if truthy x.llm_metadata
      then some (J.obj (x.llm_metadata.getD [])) else none)
      = x.llm_metadata.map J.obj := by
    cases hl : x.llm_metadata with
    | none => simp [truthy]
    | some m => simp [truthy, isEmpty_false_of_ne (h3 m hl)]
  refine ⟨?_, ?_, ?_, ?_⟩
  · rw [to_protocol_eq, hllmOpt]
    simp only [CreateMessageRequest.from_protocol]
    rw [readParams_eq, exceptBind_ok, hReadMeta _, exceptBind_ok,
      checkMethod_eq, exceptBind_ok,
      readProgressToken_of (dumpMeta_progressToken x h1 h2), exceptBind_ok,
      computeMetadata_dumpMeta x h1 h2,
      readLlmMetadata_of_map (by rw [getKey_PF_llm]) h3, exceptBind_ok,
      readMessages_of (by
        rw [getKey_PF _ _ _ _ (by decide) (by decide), dumpParams_messages])
        h4, exceptBind_ok,
      readModelPreferences_of (by
        rw [getKey_PF _ _ _ _ (by decide) (by decide),
          dumpParams_modelPreferences]) h5, exceptBind_ok,
      readSystemPrompt_of (by
        rw [getKey_PF _ _ _ _ (by decide) (by decide),
          dumpParams_systemPrompt]), exceptBind_ok,
      readIncludeContext_of (by
        rw [getKey_PF _ _ _ _ (by decide) (by decide),
          dumpParams_includeContext]), exceptBind_ok,
      readTemperature_of (by
        rw [getKey_PF _ _ _ _ (by decide) (by decide),
          dumpParams_temperature]), exceptBind_ok,
      readMaxTokens_of (by
        rw [getKey_PF _ _ _ _ (by decide) (by decide),
          dumpParams_maxTokens]), exceptBind_ok,
      readStopSequences_of (by
        rw [getKey_PF _ _ _ _ (by decide) (by decide),
          dumpParams_stopSequences]), exceptBind_ok]
  · intro m hl
    refine ⟨_, by rw [to_protocol_eq]; rfl, ?_⟩
    rw [getKey_PF_llm]
    simp [truthy, hl, isEmpty_false_of_ne (h3 m hl)]
  · intro m hm
    have hbase : ((x.metadata.getD [] : List (String × J))).isEmpty = false := by
      rw [hm]
      simp only [Option.getD_some]
      exact isEmpty_false_of_ne (h1 m hm)
    have hne : x.dumpMeta.isEmpty = false := by
      rw [dumpMeta_eq x h1 h2]
      exact isEmpty_append_false _ hbase
    have hbasept : J.getKey (x.metadata.getD []) "progressToken" = none := by
      rw [hm]
      simp only [Option.getD_some]
      exact h2 m hm
    refine ⟨_, x.dumpMeta, by rw [to_protocol_eq]; rfl, ?_, ?_⟩
    · rw [getKey_PF_meta, hne]
      rfl
    · rw [dumpMeta_eq x h1 h2, List.filter_append,
        filter_eq_self_of_no_pt hbasept, hm]
      cases hp : x.progress_token <;> simp
  · intro pt hp
    have hkey := dumpMeta_progressToken x h1 h2
    rw [hp] at hkey
    have hne : x.dumpMeta.isEmpty = false := by
      cases hdm : x.dumpMeta with
      | nil => rw [hdm] at hkey; cases hkey
      | cons p rest => rfl
    refine ⟨_, x.dumpMeta, by rw [to_protocol_eq]; rfl, ?_, hkey⟩
    rw [getKey_PF_meta, hne]
    rfl

end Protocol

/-- A `CreateMessageRequest` whose provider metadata slot is an empty
dict — a constructible Python value (`llm_metadata={}`). -/
def c9Payload : Protocol.CreateMessageRequest :=
  { messages := [⟨Protocol.Role.user, Protocol.Content.text "Hi" none⟩],
    max_tokens := 50,
    llm_metadata := some [] }

/-- What the round trip actually returns for `c9Payload`: the empty
`llm_metadata` is falsy, so `to_protocol` drops the slot and
`from_protocol` yields `None` in its place. -/
def c9Decoded : Protocol.CreateMessageRequest :=
  { messages := [⟨Protocol.Role.user, Protocol.Content.text "Hi" none⟩],
    max_tokens := 50,
    llm_metadata := none }

/-- C9 counterexample: `from_protocol (to_protocol x) == x` fails on the
value with `llm_metadata = {}`; the trip returns `llm_metadata = None`
instead. -/
theorem c9_counterexample :
    Protocol.CreateMessageRequest.from_protocol
        (Protocol.CreateMessageRequest.to_protocol c9Payload)
      = Except.ok c9Decoded
    ∧ c9Decoded.llm_metadata ≠ c9Payload.llm_metadata := by
  constructor
  · rfl
  · intro h
    simp [c9Decoded, c9Payload] at h

/-- A fully-populated normal-form request for the witness. -/
def c9Demo : Protocol.CreateMessageRequest :=
  { progress_token := some (Sum.inr "req-123"),
    metadata := some [("trace_id", J.str "abc-def")],
    messages := [⟨Protocol.Role.user, Protocol.Content.text "Hello" none⟩],
    system_prompt := some "You are helpful",
    max_tokens := 150,
    stop_sequences := some ["<END>"],
    llm_metadata := some [("provider", J.str "openai")] }

/-- C9 witness: the fully-populated normal-form request round-trips to
itself, by the amended theorem at a concrete input. -/
theorem c9_create_message_round_trip_witness :
    Protocol.CreateMessageRequest.from_protocol
        (Protocol.CreateMessageRequest.to_protocol c9Demo)
      = Except.ok c9Demo := by
  have h := Protocol.c9_create_message_round_trip c9Demo
    (fun m hm => by cases hm; simp)
    (fun m hm => by cases hm; rfl)
    (fun m hm => by cases hm; simp)
    (fun m hm an han => by
      simp only [c9Demo, List.mem_singleton] at hm
      rw [hm] at han
      cases han)
    (fun p hp => by cases hp)
  exact h.1

/-! ## Inbound request handling (`_parse_request`, `_route_request`,
`_handle_request`) with capability gating (`roots.py`,
`initialization.py`'s `ClientCapabilities`).  The base-class metadata
parsing of `ping` / `roots/list` payloads is elided: routing depends only
on the request's type. -/

namespace Protocol

def PARSE_ERROR : Int := -32700
def INVALID_REQUEST : Int := -32600
def METHOD_NOT_FOUND : Int := -32601
def INVALID_PARAMS : Int := -32602
def INTERNAL_ERROR : Int := -32603

/-- `RootsCapability`. -/
structure RootsCapability where
  list_changed : Option Bool := none
deriving DecidableEq, Repr

/-- `ClientCapabilities`: `experimental` and `roots` are presence-style,
`sampling` is a boolean. -/
structure ClientCapabilities where
  experimental : Option (List (String × J)) := none
  roots : Option RootsCapability := none
  sampling : Bool := false

/-- `Root` (`roots.py`): a `file://` URI and an optional name. -/
structure Root where
  uri : String
  name : Option String := none
deriving DecidableEq, Repr

end Protocol

namespace ClientSession

/-- `CreateMessageResult` (`sampling.py`). -/
structure CreateMessageResult where
  role : Protocol.Role
  content : Protocol.Content
  model : String
  stop_reason : Option String := none
  metadata : Option (List (String × J)) := none

/-- The three inbound request types `_parse_request` can produce. -/
inductive InboundRequest where
  | ping : InboundRequest
  | listRoots : InboundRequest
  | createMessage (r : Protocol.CreateMessageRequest) : InboundRequest

/-- `REQUEST_CAPABILITY_REQUIREMENTS.get(type(request))`. -/
def requiredCapability : InboundRequest → Option String
  | InboundRequest.createMessage _ => some "sampling"
  | InboundRequest.listRoots => some "roots"
  | InboundRequest.ping => none

/-- What `_route_request` returns on the success side. -/
inductive RouteResult where
  | emptyResult : RouteResult
  | listRootsResult (roots : List Protocol.Root) : RouteResult
  | createMessageResult (r : CreateMessageResult) : RouteResult

/-- The caller-supplied sampling handler: returns a result or raises. -/
abbrev Handler :=
  Protocol.CreateMessageRequest → Except String CreateMessageResult

/-- `_route_request`: check the capability requirement (sampling must be
enabled; roots must be declared), then dispatch by request type; a
registered handler's exception propagates (`Except.error`). -/
def route_request (capabilities : Protocol.ClientCapabilities)
    (create_message_handler : Option Handler)
    (roots : List Protocol.Root) (request : InboundRequest) :
    Except String (RouteResult ⊕ Protocol.Error) :=
  let gate : Option Protocol.Error :=
    match requiredCapability request with
    | some "sampling" =>
        if capabilities.sampling = false then
          some ⟨Protocol.METHOD_NOT_FOUND,
            "Client does not support sampling capability", none⟩
        else none
    | some "roots" =>
        if capabilities.roots.isNone then
          some ⟨Protocol.METHOD_NOT_FOUND,
            "Client does not support roots capability", none⟩
        else none
    | _ => none
  match gate with
  | some e => Except.ok (Sum.inr e)
  | none =>
    match request with
    | InboundRequest.ping => Except.ok (Sum.inl RouteResult.emptyResult)
    | InboundRequest.listRoots =>
        Except.ok (Sum.inl (RouteResult.listRootsResult roots))
    | InboundRequest.createMessage r =>
      match create_message_handler with
      | none => Except.ok (Sum.inr ⟨Protocol.INTERNAL_ERROR,
          "Sampling capability enabled but internal handler not configured",
          none⟩)
      | some h =>
        match h r with
        | Except.ok res =>
            Except.ok (Sum.inl (RouteResult.createMessageResult res))
        | Except.error msg => Except.error msg

/-- `_parse_request`: dispatch on the `method` string; unknown methods
raise `ValueError("Unknown request method: ...")`. -/
def parse_request (payload : List (String × J)) :
    Except String InboundRequest :=
  match J.getKey payload "method" with
  | some (J.str "sampling/createMessage") => do
      let r ← Protocol.CreateMessageRequest.from_protocol payload
      Except.ok (InboundRequest.createMessage r)
  | some (J.str "ping") => Except.ok InboundRequest.ping
  | some (J.str "roots/list") => Except.ok InboundRequest.listRoots
  | some (J.str m) => Except.error ("Unknown request method: " ++ m)
  | _ => Except.error "method missing"

/-- `Root` dumped to the wire (`uri`, optional `name`). -/
def Root.toJ (r : Protocol.Root) : J :=
  J.obj ([("uri", J.str r.uri)] ++ Protocol.optEntry "name" (r.name.map J.str))

/-- `Result.to_protocol` of the three route results: alias-keyed dump with
`None`s dropped, `_meta` added when the result metadata is truthy. -/
def RouteResult.to_protocol : RouteResult → List (String × J)
  | RouteResult.emptyResult => []
  | RouteResult.listRootsResult roots =>
      [("roots", J.arr (roots.map Root.toJ))]
  | RouteResult.createMessageResult r =>
      [("role", Protocol.Role.toJ r.role),
       ("content", Protocol.Content.toJ r.content),
       ("model", J.str r.model)]
      ++ Protocol.optEntry "stopReason" (r.stop_reason.map J.str)
      ++ (if Protocol.truthy r.metadata
          then [("_meta", J.obj (r.metadata.getD []))] else [])

/-- `JSONRPCResponse.to_wire`. -/
def JSONRPCResponse.to_wire (result : List (String × J))
    (id : Protocol.RId) : List (String × J) :=
  [("result", J.obj result), ("jsonrpc", J.str "2.0"),
   ("id", Protocol.ridToJ id)]

/-- `JSONRPCError.to_wire`. -/
def JSONRPCError.to_wire (e : Protocol.Error) (id : Protocol.RId) :
    List (String × J) :=
  [("error", J.obj (Protocol.Error.to_protocol e)), ("jsonrpc", J.str "2.0"),
   ("id", Protocol.ridToJ id)]

/-- `_handle_request`: parse and route; a `Result` becomes a
`JSONRPCResponse`, an `Error` a `JSONRPCError`, and any raised exception
is caught and sent as `Error(INTERNAL_ERROR, str(e))` — all under the
inbound message id. -/
def handle_request (capabilities : Protocol.ClientCapabilities)
    (create_message_handler : Option Handler)
    (roots : List Protocol.Root) (message_id : Protocol.RId)
    (payload : List (String × J)) : List (String × J) :=
  match (do
      let req ← parse_request payload
      route_request capabilities create_message_handler roots req :
        Except String (RouteResult ⊕ Protocol.Error)) with
  | Except.ok (Sum.inl res) =>
      JSONRPCResponse.to_wire (RouteResult.to_protocol res) message_id
  | Except.ok (Sum.inr e) => JSONRPCError.to_wire e message_id
  | Except.error msg =>
      JSONRPCError.to_wire ⟨Protocol.INTERNAL_ERROR, msg, none⟩ message_id

end ClientSession

/-- C7 counterexample: an inbound request with an unknown method is
answered with INTERNAL_ERROR (-32603), because `_parse_request` raises
before `_route_request`'s METHOD_NOT_FOUND branch can run — not with
METHOD_NOT_FOUND (-32601) as claimed. -/
theorem c7_counterexample :
    ClientSession.handle_request ⟨none, none, false⟩ none [] (Sum.inl 5)
        [("method", J.str "foo/bar"), ("id", J.num 5)]
      = ClientSession.JSONRPCError.to_wire
          ⟨Protocol.INTERNAL_ERROR, "Unknown request method: foo/bar", none⟩
          (Sum.inl 5)
    ∧ Protocol.INTERNAL_ERROR ≠ Protocol.METHOD_NOT_FOUND := by
  exact ⟨rfl, by decide⟩

/-- C7 (amended): inbound requests are routed by method with capability
gating — `ping` needs no capability and gets the empty result;
`roots/list` returns the configured roots iff the `roots` capability is
declared and METHOD_NOT_FOUND otherwise; `sampling/createMessage` invokes
the registered handler iff the sampling capability is on and a handler is
registered, METHOD_NOT_FOUND if the capability is off, INTERNAL_ERROR if
it is on with no handler; and any other method is answered with an error
under the same id — but with code INTERNAL_ERROR ("Unknown request
method: ..."), since parsing fails before routing. -/
theorem c7_route_by_method (caps : Protocol.ClientCapabilities)
    (handler : Option ClientSession.Handler)
    (roots : List Protocol.Root) :
    (ClientSession.route_request caps handler roots ClientSession.InboundRequest.ping
       = Except.ok (Sum.inl ClientSession.RouteResult.emptyResult))
    ∧ (∀ rc, caps.roots = some rc →
       ClientSession.route_request caps handler roots
           ClientSession.InboundRequest.listRoots
         = Except.ok (Sum.inl (ClientSession.RouteResult.listRootsResult roots)))
    ∧ (caps.roots = none →
       ClientSession.route_request caps handler roots
           ClientSession.InboundRequest.listRoots
         = Except.ok (Sum.inr ⟨Protocol.METHOD_NOT_FOUND,
             "Client does not support roots capability", none⟩))
    ∧ (∀ r, caps.sampling = false →
       ClientSession.route_request caps handler roots
           (ClientSession.InboundRequest.createMessage r)
         = Except.ok (Sum.inr ⟨Protocol.METHOD_NOT_FOUND,
             "Client does not support sampling capability", none⟩))
    ∧ (∀ r, caps.sampling = true → handler = none →
       ClientSession.route_request caps handler roots
           (ClientSession.InboundRequest.createMessage r)
         = Except.ok (Sum.inr ⟨Protocol.INTERNAL_ERROR,
             "Sampling capability enabled but internal handler not configured",
             none⟩))
    ∧ (∀ r h, caps.sampling = true → handler = some h →
       ClientSession.route_request caps handler roots
           (ClientSession.InboundRequest.createMessage r)
         = (match h r with
            | Except.ok res =>
                Except.ok (Sum.inl (ClientSession.RouteResult.createMessageResult res))
            | Except.error msg => Except.error msg))
    ∧ (∀ (m : String) (id : Protocol.RId) (payload : List (String × J)),
       m ≠ "sampling/createMessage" → m ≠ "ping" → m ≠ "roots/list" →
       J.getKey payload "method" = some (J.str m) →
       ClientSession.handle_request caps handler roots id payload
         = ClientSession.JSONRPCError.to_wire
             ⟨Protocol.INTERNAL_ERROR, "Unknown request method: " ++ m, none⟩
             id) := by
  refine ⟨?_, ?_, ?_, ?_, ?_, ?_, ?_⟩
  · simp [ClientSession.route_request, ClientSession.requiredCapability]
  · intro rc hrc
    simp [ClientSession.route_request, ClientSession.requiredCapability, hrc]
  · intro hrc
    simp [ClientSession.route_request, ClientSession.requiredCapability, hrc]
  · intro r hs
    simp [ClientSession.route_request, ClientSession.requiredCapability, hs]
  · intro r hs hh
    simp [ClientSession.route_request, ClientSession.requiredCapability,
      hs, hh]
  · intro r h hs hh
    simp [ClientSession.route_request, ClientSession.requiredCapability,
      hs, hh]
  · intro m id payload hm1 hm2 hm3 hk
    simp [ClientSession.handle_request, ClientSession.parse_request, hk,
      hm1, hm2, hm3, Protocol.exceptBind_error]

/-- C7 witness: a session with the roots capability declared and roots
configured answers `roots/list` with that list. -/
theorem c7_route_by_method_witness :
    ClientSession.route_request ⟨none, some ⟨none⟩, false⟩ none
        [⟨"file:///test", some "test"⟩] ClientSession.InboundRequest.listRoots
      = Except.ok (Sum.inl (ClientSession.RouteResult.listRootsResult
          [⟨"file:///test", some "test"⟩])) :=
  (c7_route_by_method ⟨none, some ⟨none⟩, false⟩ none
    [⟨"file:///test", some "test"⟩]).2.1 ⟨none⟩ rfl

/-- C8: an exception raised inside the caller-supplied sampling handler is
caught: the session sends a `JSONRPCError` under the same inbound id with
code INTERNAL_ERROR (-32603) and message equal to the exception text; and
the receive loop is untouched — requests are handled on spawned tasks, so
the loop keeps processing every subsequent message. -/
theorem c8_handler_exception_to_internal_error
    (caps : Protocol.ClientCapabilities)
    (handler : Option ClientSession.Handler)
    (roots : List Protocol.Root) (id : Protocol.RId)
    (payload : List (String × J)) (r : Protocol.CreateMessageRequest)
    (h : ClientSession.Handler) (t : String)
    (hs : caps.sampling = true)
    (hh : handler = some h)
    (hr : h r = Except.error t)
    (hp : ClientSession.parse_request payload
      = Except.ok (ClientSession.InboundRequest.createMessage r)) :
    ClientSession.handle_request caps handler roots id payload
      = ClientSession.JSONRPCError.to_wire
          ⟨Protocol.INTERNAL_ERROR, t, none⟩ id
    ∧ J.getKey (ClientSession.handle_request caps handler roots id payload)
        "id" = some (Protocol.ridToJ id)
    ∧ J.getKey (ClientSession.handle_request caps handler roots id payload)
        "error"
        = some (J.obj [("code", J.num (Protocol.INTERNAL_ERROR : Int)),
            ("message", J.str t)])
    ∧ (∀ p rest, ClientSession.message_loop (ClientSession.LoopIn.msg p :: rest)
        = ClientSession.handle_message p :: ClientSession.message_loop rest) := by
  have hmain : ClientSession.handle_request caps handler roots id payload
      = ClientSession.JSONRPCError.to_wire
          ⟨Protocol.INTERNAL_ERROR, t, none⟩ id := by
    simp [ClientSession.handle_request, hp, Protocol.exceptBind_ok,
      ClientSession.route_request, ClientSession.requiredCapability,
      hs, hh, hr]
  refine ⟨hmain, ?_, ?_, ?_⟩
  · rw [hmain]; rfl
  · rw [hmain]; rfl
  · intro p rest; rfl

/-- A concrete sampling request for the C8 witness. -/
def c8Request : Protocol.CreateMessageRequest :=
  { messages := [⟨Protocol.Role.user, Protocol.Content.text "Hello, world!" none⟩],
    max_tokens := 100 }

/-- C8 witness: a handler that raises "Something went wrong in user code!"
on the concrete inbound `sampling/createMessage` with id 42 produces the
INTERNAL_ERROR response under id 42. -/
theorem c8_handler_exception_to_internal_error_witness :
    ClientSession.handle_request ⟨none, none, true⟩
        (some (fun _ => Except.error "Something went wrong in user code!"))
        [] (Sum.inl 42)
        (Protocol.CreateMessageRequest.to_protocol c8Request)
      = ClientSession.JSONRPCError.to_wire
          ⟨Protocol.INTERNAL_ERROR, "Something went wrong in user code!",
           none⟩ (Sum.inl 42) :=
  (c8_handler_exception_to_internal_error ⟨none, none, true⟩
    (some (fun _ => Except.error "Something went wrong in user code!"))
    [] (Sum.inl 42) (Protocol.CreateMessageRequest.to_protocol c8Request)
    c8Request (fun _ => Except.error "Something went wrong in user code!")
    "Something went wrong in user code!" rfl rfl rfl (by rfl)).1

/-! ## The constructor guard (`ClientSession.__init__`) -/

namespace ClientSession

/-- The constructor-relevant session configuration. -/
structure SessionConfig where
  capabilities : Protocol.ClientCapabilities
  create_message_handler : Option Handler
  roots : List Protocol.Root

/-- `ClientSession.__init__`: raise `ValueError` when the sampling
capability is enabled with no `create_message_handler`; `roots` defaults
to the empty list. -/
def mkClientSession (capabilities : Protocol.ClientCapabilities)
    (create_message_handler : Option Handler)
    (roots : Option (List Protocol.Root)) :
    Except String SessionConfig :=
  if capabilities.sampling = true ∧ create_message_handler.isNone = true then
    Except.error ("create_message_handler required when sampling capability"
      ++ " is enabled. Either provide a handler or disable sampling in"
      ++ " ClientCapabilities.")
  else
    Except.ok ⟨capabilities, create_message_handler, roots.getD []⟩

end ClientSession

/-- C10: constructing a session with `sampling = True` and no
`create_message_handler` raises `ValueError`, so every session built by
the public constructor with sampling enabled has a handler; consequently
`_route_request`'s INTERNAL_ERROR branch for a missing handler is
unreachable through the constructor — routing `sampling/createMessage` on
any constructed session never returns that error. -/
theorem c10_sampling_requires_handler
    (caps : Protocol.ClientCapabilities)
    (handler : Option ClientSession.Handler)
    (roots : Option (List Protocol.Root)) :
    (caps.sampling = true →
      ∃ msg, ClientSession.mkClientSession caps none roots
        = Except.error msg)
    ∧ (∀ s, ClientSession.mkClientSession caps handler roots = Except.ok s →
       (s.capabilities.sampling = true → s.create_message_handler ≠ none)
       ∧ (∀ r, ClientSession.route_request s.capabilities
             s.create_message_handler s.roots
             (ClientSession.InboundRequest.createMessage r)
           ≠ Except.ok (Sum.inr ⟨Protocol.INTERNAL_ERROR,
               "Sampling capability enabled but internal handler not configured",
               none⟩))) := by
  constructor
  · intro hs
    refine ⟨("create_message_handler required when sampling capability"
      ++ " is enabled. Either provide a handler or disable sampling in"
      ++ " ClientCapabilities."), ?_⟩
    rw [ClientSession.mkClientSession, if_pos ⟨hs, rfl⟩]
  · intro s hmk
    rw [ClientSession.mkClientSession] at hmk
    by_cases hc : caps.sampling = true ∧ handler.isNone = true
    · rw [if_pos hc] at hmk
      cases hmk
    · rw [if_neg hc] at hmk
      obtain rfl : (⟨caps, handler, roots.getD []⟩ :
          ClientSession.SessionConfig) = s :=
        (Except.ok.injEq _ _).mp hmk
      constructor
      · intro hs hnone
        have hs2 : caps.sampling = true := hs
        have hn : handler = none := hnone
        exact hc ⟨hs2, by rw [hn]; rfl⟩
      · intro r hcon
        have hcon' : ClientSession.route_request caps handler (roots.getD [])
            (ClientSession.InboundRequest.createMessage r)
          = Except.ok (Sum.inr ⟨Protocol.INTERNAL_ERROR,
              "Sampling capability enabled but internal handler not configured",
              none⟩) := hcon
        by_cases hs : caps.sampling = true
        · cases hh : handler with
          | none => exact hc ⟨hs, by rw [hh]; rfl⟩
          | some h =>
            rw [hh] at hcon'
            cases hhr : h r with
            | ok res =>
              simp [ClientSession.route_request,
                ClientSession.requiredCapability, hs, hhr] at hcon'
            | error m =>
              simp [ClientSession.route_request,
                ClientSession.requiredCapability, hs, hhr] at hcon'
        · have hs' : caps.sampling = false := by
            cases hsv : caps.sampling
            · rfl
            · exact absurd hsv hs
          simp [ClientSession.route_request,
            ClientSession.requiredCapability, hs',
            Protocol.METHOD_NOT_FOUND, Protocol.INTERNAL_ERROR] at hcon'

/-- A demo sampling handler for the C10 witness. -/
def c10Handler : ClientSession.Handler :=
  fun _ => Except.ok ⟨Protocol.Role.assistant,
    Protocol.Content.text "ok" none, "demo-model", none, none⟩

/-- C10 witness: with sampling enabled and no handler, the constructor
fails; and the session built with a demo handler never answers
`sampling/createMessage` with the missing-handler INTERNAL_ERROR. -/
theorem c10_sampling_requires_handler_witness :
    (∃ msg, ClientSession.mkClientSession ⟨none, none, true⟩ none none
        = Except.error msg)
    ∧ ∀ r, ClientSession.route_request
          (⟨none, none, true⟩ : Protocol.ClientCapabilities)
          (some c10Handler) []
          (ClientSession.InboundRequest.createMessage r)
        ≠ Except.ok (Sum.inr ⟨Protocol.INTERNAL_ERROR,
            "Sampling capability enabled but internal handler not configured",
            none⟩) :=
  have h := c10_sampling_requires_handler ⟨none, none, true⟩
    (some c10Handler) none
  ⟨h.1 rfl, fun r => (h.2 ⟨⟨none, none, true⟩, some c10Handler, []⟩ rfl).2 r⟩
